import Mathlib

/-!
Shallow embedding of the mircmd chemistry plugins file-importer core
(`files-importer` / `chemistry-files-importer` crates) in Lean 4, together
with theorems about the format recognizers, parsers and the dispatcher.

Rust strings are modelled as Lean `String`s; `f64` values are kept symbolic
(an `FVal` records the source token and any Bohr→Angstrom scaling applied),
since no verified property inspects a floating-point value numerically.
Machine integers are modelled as `Nat`/`Int` with explicit wrapping where the
source performs unchecked casts or arithmetic (release-mode semantics), and
`Vec::with_capacity` is modelled as panicking when the requested allocation
exceeds `isize::MAX` bytes on a 64-bit target.
-/

namespace Chem

/-! ## Rust string primitives -/

/-- Whitespace test used by Rust `str::trim` / `split_whitespace`
(restricted to the ASCII whitespace characters, which are the only ones
appearing in the modelled file formats). -/
def isWs (c : Char) : Bool :=
  c = ' ' || c = '\t' || c = '\n' || c = '\r' || c = '\x0b' || c = '\x0c'

/-- Trim of a character list on both ends, as in Rust `str::trim`. -/
def trimChars (l : List Char) : List Char :=
  ((l.dropWhile isWs).reverse.dropWhile isWs).reverse

/-- Model of Rust `str::trim`. -/
def rtrim (s : String) : String := ⟨trimChars s.data⟩

/-- Tokenizer behind the model of Rust `str::split_whitespace` (`cur` holds
the characters of the current token in reverse). -/
def wsTokensAux : List Char → List Char → List String
  | [], cur => if cur.isEmpty then [] else [String.mk cur.reverse]
  | c :: cs, cur =>
    if isWs c then
      if cur.isEmpty then wsTokensAux cs []
      else String.mk cur.reverse :: wsTokensAux cs []
    else wsTokensAux cs (c :: cur)

/-- Model of Rust `str::split_whitespace().collect::<Vec<_>>()`. -/
def splitWs (s : String) : List String := wsTokensAux s.data []

/-- Strip one trailing carriage return from a reversed line accumulator. -/
def stripCRrev : List Char → List Char
  | '\r' :: r => r
  | l => l

/-- Accumulator recursion behind the model of Rust `str::lines`. -/
def rustLinesAux : List Char → List Char → List (List Char)
  | [], acc => if acc.isEmpty then [] else [acc.reverse]
  | c :: cs, acc =>
    if c = '\n' then (stripCRrev acc).reverse :: rustLinesAux cs []
    else rustLinesAux cs (c :: acc)

/-- Model of Rust `str::lines`: split at `"\n"` (also consuming a `'\r'`
directly before it), with the final line terminator optional. -/
def rustLines (s : String) : List String :=
  (rustLinesAux s.data []).map String.mk

/-- Substring test on character lists. -/
def containsSubC : List Char → List Char → Bool
  | [], pat => pat.isEmpty
  | c :: t, pat => pat.isPrefixOf (c :: t) || containsSubC t pat

/-- Model of Rust `str::contains` for a literal pattern. -/
def containsSub (s pat : String) : Bool := containsSubC s.data pat.data

/-- Model of Rust `str::starts_with` for a literal pattern. -/
def strStartsWith (s pat : String) : Bool := pat.data.isPrefixOf s.data

/-! ## Rust numeric parsing -/

def digitVal (c : Char) : Nat := c.toNat - '0'.toNat

/-- Value of a decimal digit string. -/
def digitsVal (l : List Char) : Nat := l.foldl (fun a c => 10 * a + digitVal c) 0

/-- Nonempty and all decimal digits. -/
def allDigits (l : List Char) : Bool := !l.isEmpty && l.all Char.isDigit

def USIZE_MAX : Nat := 18446744073709551615
def USIZE_MOD : Nat := 18446744073709551616
def I32_MAX : Nat := 2147483647
def ISIZE_MAX : Nat := 9223372036854775807

/-- Model of Rust `str::parse::<usize>()` on a 64-bit target:
an optional `'+'`, then decimal digits, rejecting values above `usize::MAX`. -/
def parseUsize (s : String) : Option Nat :=
  let cs := match s.data with
    | '+' :: r => r
    | r => r
  if allDigits cs then
    let v := digitsVal cs
    if v ≤ USIZE_MAX then some v else none
  else none

/-- Model of Rust `str::parse::<i32>()`: an optional sign, then decimal
digits, rejecting values outside `[-2^31, 2^31)`. -/
def parseI32 (s : String) : Option Int :=
  match s.data with
  | '+' :: r =>
    if allDigits r then
      let v := digitsVal r
      if v ≤ I32_MAX then some (v : Int) else none
    else none
  | '-' :: r =>
    if allDigits r then
      let v := digitsVal r
      if v ≤ I32_MAX + 1 then some (-(v : Int)) else none
    else none
  | r =>
    if allDigits r then
      let v := digitsVal r
      if v ≤ I32_MAX then some (v : Int) else none
    else none

/-- Strip one leading sign character. -/
def stripSignC : List Char → List Char
  | '+' :: r => r
  | '-' :: r => r
  | r => r

/-- Split a character list at the first occurrence of `p`, if any. -/
def splitFirst (p : Char) : List Char → Option (List Char × List Char)
  | [] => none
  | c :: cs =>
    if c = p then some ([], cs)
    else (splitFirst p cs).map (fun ab => (c :: ab.1, ab.2))

/-- Significand of the Rust `f64` grammar:
`Digits | Digits '.' [Digits] | [Digits] '.' Digits`. -/
def mantissaOk (cs : List Char) : Bool :=
  match splitFirst '.' cs with
  | none => allDigits cs
  | some (pre, post) =>
    (!pre.isEmpty || !post.isEmpty) && pre.all Char.isDigit && post.all Char.isDigit

/-- Exponent of the Rust `f64` grammar: optional sign then digits. -/
def expPartOk (cs : List Char) : Bool := allDigits (stripSignC cs)

/-- Model of the Rust `f64::from_str` grammar (`true` iff `parse::<f64>()`
succeeds): optional sign, then `inf`/`infinity`/`nan` (case-insensitive) or a
significand with an optional exponent. -/
def f64TokOk (s : String) : Bool :=
  let cs := (stripSignC s.data).map Char.toLower
  if cs = ['i', 'n', 'f'] || cs = ['i', 'n', 'f', 'i', 'n', 'i', 't', 'y'] ||
      cs = ['n', 'a', 'n'] then
    true
  else
    match splitFirst 'e' cs with
    | none => mantissaOk cs
    | some (m, e) => mantissaOk m && expPartOk e

/-! ## Symbolic `f64` values

No verified property inspects a floating-point value numerically, so an `f64`
is kept symbolic: the token it was parsed from, the default `0.0`, or a value
scaled by the Bohr→Angstrom constant (`* 0.529177210903` in the source). -/

inductive FVal where
  | lit : String → FVal
  | zero : FVal
  | bohr : FVal → FVal
deriving DecidableEq, Repr

/-- Model of Rust `str::parse::<f64>()`, keeping the value symbolic. -/
def parseF64 (s : String) : Option FVal :=
  if f64TokOk s then some (.lit s) else none

/-! ## Periodic-table collaborator -/

/-- Modelled from the spec: the periodic-table lookup collaborator
(`shared_lib::periodic_table::get_element_by_symbol` and the
`chemistry-files-importer` `utils::symbol_to_atomic_number`, whose sources are
not included under `src/`). Per the spec it maps a standard element symbol to
its atomic number and fails on anything else; the standard 118 symbols are
listed here. -/
def periodicTable : List (String × Int) :=
  [("H", 1), ("He", 2), ("Li", 3), ("Be", 4), ("B", 5), ("C", 6), ("N", 7),
   ("O", 8), ("F", 9), ("Ne", 10), ("Na", 11), ("Mg", 12), ("Al", 13),
   ("Si", 14), ("P", 15), ("S", 16), ("Cl", 17), ("Ar", 18), ("K", 19),
   ("Ca", 20), ("Sc", 21), ("Ti", 22), ("V", 23), ("Cr", 24), ("Mn", 25),
   ("Fe", 26), ("Co", 27), ("Ni", 28), ("Cu", 29), ("Zn", 30), ("Ga", 31),
   ("Ge", 32), ("As", 33), ("Se", 34), ("Br", 35), ("Kr", 36), ("Rb", 37),
   ("Sr", 38), ("Y", 39), ("Zr", 40), ("Nb", 41), ("Mo", 42), ("Tc", 43),
   ("Ru", 44), ("Rh", 45), ("Pd", 46), ("Ag", 47), ("Cd", 48), ("In", 49),
   ("Sn", 50), ("Sb", 51), ("Te", 52), ("I", 53), ("Xe", 54), ("Cs", 55),
   ("Ba", 56), ("La", 57), ("Ce", 58), ("Pr", 59), ("Nd", 60), ("Pm", 61),
   ("Sm", 62), ("Eu", 63), ("Gd", 64), ("Tb", 65), ("Dy", 66), ("Ho", 67),
   ("Er", 68), ("Tm", 69), ("Yb", 70), ("Lu", 71), ("Hf", 72), ("Ta", 73),
   ("W", 74), ("Re", 75), ("Os", 76), ("Ir", 77), ("Pt", 78), ("Au", 79),
   ("Hg", 80), ("Tl", 81), ("Pb", 82), ("Bi", 83), ("Po", 84), ("At", 85),
   ("Rn", 86), ("Fr", 87), ("Ra", 88), ("Ac", 89), ("Th", 90), ("Pa", 91),
   ("U", 92), ("Np", 93), ("Pu", 94), ("Am", 95), ("Cm", 96), ("Bk", 97),
   ("Cf", 98), ("Es", 99), ("Fm", 100), ("Md", 101), ("No", 102), ("Lr", 103),
   ("Rf", 104), ("Db", 105), ("Sg", 106), ("Bh", 107), ("Hs", 108),
   ("Mt", 109), ("Ds", 110), ("Rg", 111), ("Cn", 112), ("Nh", 113),
   ("Fl", 114), ("Mc", 115), ("Lv", 116), ("Ts", 117), ("Og", 118)]

/-- Modelled from the spec: `get_element_by_symbol(sym).map(|e| e.atomic_number)`. -/
def getElementBySymbol (sym : String) : Option Int :=
  (periodicTable.find? (fun p => p.1 = sym)).map (fun p => p.2)

/-- Modelled from the spec: `symbol_to_atomic_number`, same lookup direction. -/
def symbolToAtomicNumber (sym : String) : Option Int := getElementBySymbol sym

/-! ## Data model (`shared_lib::types` / `chemistry-files-importer` types) -/

structure AtomicCoordinates where
  atomic_num : List Int
  x : List FVal
  y : List FVal
  z : List FVal
deriving DecidableEq

structure Molecule where
  n_atoms : Int
  atomic_num : List Int
  charge : Int
  molName : String
deriving DecidableEq

structure VolumeCube where
  comment1 : String
  comment2 : String
  box_origin : List FVal
  steps_number : List Int
  steps_size : List (List FVal)
  cube_data : List (List (List FVal))
deriving DecidableEq

/-- The serialized `data` bytes of a `Node`. Serialization is an external
collaborator (spec §3: any encoding that round-trips the payload structs), so
the payload is carried directly. -/
inductive Payload where
  | empty : Payload
  | mol : Molecule → Payload
  | coords : AtomicCoordinates → Payload
  | cube : VolumeCube → Payload
deriving DecidableEq

inductive Node where
  | mk (name : String) (kind : String) (data : Payload) (children : List Node)

def Node.name : Node → String
  | .mk n _ _ _ => n

def Node.kind : Node → String
  | .mk _ k _ _ => k

def Node.data : Node → Payload
  | .mk _ _ d _ => d

def Node.children : Node → List Node
  | .mk _ _ _ c => c

/-- Result of running a Rust function that may return `Ok`, return `Err`,
or panic/abort the process. -/
inductive RResult (α : Type) where
  | ok : α → RResult α
  | err : String → RResult α
  | panicked : RResult α
deriving DecidableEq

def RResult.isOk : RResult α → Bool
  | .ok _ => true
  | _ => false

def RResult.isPanicked : RResult α → Bool
  | .panicked => true
  | _ => false

def RResult.errMsg : RResult α → Option String
  | .err e => some e
  | _ => none

/-! ## Machine-integer conversions and allocation model -/

/-- Wrap an integer to `i32` (release-mode overflow semantics). -/
def i32Wrap (z : Int) : Int :=
  let m := z % 4294967296
  if m ≥ 2147483648 then m - 4294967296 else m

/-- Model of Rust `i as usize` for `i : i32` on a 64-bit target. -/
def usizeOfI32 (z : Int) : Nat := (z % (USIZE_MOD : Int)).toNat

/-- Model of release-mode `usize` multiplication (wrapping). -/
def usizeMul (a b : Nat) : Nat := (a * b) % USIZE_MOD

/-- Model of Rust `i32::unsigned_abs` followed by `as usize`. -/
def unsignedAbs (z : Int) : Nat := z.natAbs

/-- `Vec::with_capacity(n)` for elements of `elemSize` bytes panics with a
capacity overflow when the requested allocation exceeds `isize::MAX` bytes
(64-bit target). -/
def capOverflow (elemSize n : Nat) : Bool := elemSize * n > ISIZE_MAX

/-- Model of Rust `n as i32` for `n : usize` (wrapping cast). -/
def i32OfUsizeWrap (n : Nat) : Int := i32Wrap (n : Int)

/-! ## Node type tags -/

def molType : String := "mircmd:chemistry:molecule"
def atCoordsType : String := "mircmd:chemistry:atomic_coordinates"
def volumeCubeType : String := "mircmd:chemistry:volume_cube"
def unexType : String := "mircmd:chemistry:unex"

/-! ## XYZ format (`files-importer/src/parsers/xyz.rs`) -/

namespace Xyz

/-- First alternative of the card-validation regex head: `[A-Z][a-z]?` or
`[0-9]+`. -/
def elemOrNumTok (t : String) : Bool :=
  allDigits t.data ||
    (match t.data with
     | [c] => c.isUpper
     | [c, d] => c.isUpper && d.isLower
     | _ => false)

/-- Mantissa of the card-validation regex number: `[0-9]*\.?[0-9]+`. -/
def regexMantOk (cs : List Char) : Bool :=
  match splitFirst '.' cs with
  | none => allDigits cs
  | some (pre, post) => pre.all Char.isDigit && allDigits post

/-- Number of the card-validation regex:
`[-+]?[0-9]*\.?[0-9]+([eE][-+]?[0-9]+)?`, anchored to the whole token. -/
def regexNumTok (t : String) : Bool :=
  let cs := (stripSignC t.data).map Char.toLower
  match splitFirst 'e' cs with
  | none => regexMantOk cs
  | some (m, e) => regexMantOk m && allDigits (stripSignC e)

/-- Whole-line match of the card-validation regex
`^([A-Z][a-z]?|[0-9]+)([\s]+[-+]?[0-9]*\.?[0-9]+([eE][-+]?[0-9]+)?){3}$`:
since no group may contain whitespace, the line must tokenize into exactly
four tokens of the right shapes. -/
def cardMatches (line : String) : Bool :=
  match splitWs line with
  | [t0, t1, t2, t3] => elemOrNumTok t0 && regexNumTok t1 && regexNumTok t2 && regexNumTok t3
  | _ => false

/-- Model of `xyz::test` on the file's content (the recognizer reads at most
`MAX_VALIDATION_LINES = 10` lines; its I/O failure branch is out of scope). -/
def test (content : String) : Bool :=
  let lines := (rustLines content).take 10
  match lines with
  | [] => false
  | l0 :: _ =>
    match parseUsize (rtrim l0) with
    | none => false
    | some numat =>
      if numat = 0 then false
      else ((lines.drop 2).take (min numat 8)).all (fun l => cardMatches (rtrim l))

/-- Field 0 of a coordinate card: an integer atomic number, or an element
symbol resolved through the periodic table. -/
def atomNumOfTok (t : String) : Option Int :=
  match parseI32 t with
  | some n => some n
  | none => getElementBySymbol t

inductive PState where
  | init | comment | cards
deriving DecidableEq

structure St where
  state : PState
  numAtoms : Nat
  numRead : Nat
  title : String
  an : List Int
  xs : List FVal
  ys : List FVal
  zs : List FVal
  children : List Node
  molData : Molecule

def initSt (fileName : String) : St :=
  ⟨.init, 0, 0, "", [], [], [], [], [], ⟨0, [], 0, fileName⟩⟩

/-- The line loop of `xyz::parse` (`n` is the 0-based line number). -/
def go (fileName : String) : List String → Nat → St → RResult St
  | [], _, st => .ok st
  | line :: rest, n, st =>
    match st.state with
    | .init =>
      let trimmed := rtrim line
      if trimmed = "" then .ok st
      else
        match parseUsize trimmed with
        | none => .err ("Invalid line " ++ toString (n + 1) ++ ", expected number of atoms.")
        | some numAtoms =>
          if numAtoms = 0 then
            .err ("Invalid number of atoms " ++ toString numAtoms ++ " at line " ++
              toString (n + 1) ++ ".")
          else go fileName rest (n + 1) { st with state := .comment, numAtoms := numAtoms }
    | .comment =>
      let title := rtrim line
      let title := if title = "" then "Set@line=" ++ toString n else title
      if capOverflow 4 st.numAtoms || capOverflow 8 st.numAtoms then .panicked
      else
        go fileName rest (n + 1)
          { st with
            state := PState.cards
            title := title
            numRead := 0
            an := []
            xs := []
            ys := []
            zs := [] }
    | .cards =>
      match splitWs (rtrim line) with
      | i0 :: i1 :: i2 :: i3 :: _ =>
        match atomNumOfTok i0 with
        | none => .err ("Invalid atom at line " ++ toString (n + 1) ++ ".")
        | some atomicNum =>
          match parseF64 i1, parseF64 i2, parseF64 i3 with
          | some cx, some cy, some cz =>
            let numRead := st.numRead + 1
            let an := st.an ++ [atomicNum]
            let xs := st.xs ++ [cx]
            let ys := st.ys ++ [cy]
            let zs := st.zs ++ [cz]
            if numRead = st.numAtoms then
              let nd : Node := .mk st.title atCoordsType (.coords ⟨an, xs, ys, zs⟩) []
              go fileName rest (n + 1)
                { st with
                  state := PState.init
                  numRead := numRead
                  an := an
                  xs := xs
                  ys := ys
                  zs := zs
                  children := st.children ++ [nd]
                  molData := ⟨i32OfUsizeWrap st.numAtoms, an, 0, fileName⟩ }
            else go fileName rest (n + 1) { st with numRead := numRead, an := an, xs := xs, ys := ys, zs := zs }
          | _, _, _ =>
            .err ("Invalid coordinate value(s) at line " ++ toString (n + 1) ++ ".")
      | _ => .err ("Invalid atom card at line " ++ toString (n + 1) ++ ".")

/-- Model of `xyz::parse`. -/
def parse (content fileName : String) : RResult Node :=
  match go fileName (rustLines content) 0 (initSt fileName) with
  | .ok st => .ok (.mk fileName molType (.mol st.molData) st.children)
  | .err e => .err e
  | .panicked => .panicked

end Xyz

/-! ## Gaussian Cube format (`files-importer/src/parsers/cube.rs`) -/

namespace Cube

/-- A check shared by the recognizer's header and grid lines: at least 4
whitespace tokens, the first an `i32`, the next three `f64`s. -/
def intAnd3Floats (l : String) : Bool :=
  match splitWs (rtrim l) with
  | p0 :: p1 :: p2 :: p3 :: _ =>
    (parseI32 p0).isSome && f64TokOk p1 && f64TokOk p2 && f64TokOk p3
  | _ => false

/-- Model of `cube::test` on the file's content (reads at most
`MAX_VALIDATION_LINES = 10` lines). -/
def test (content : String) : Bool :=
  let lines := (rustLines content).take 10
  if lines.length < 6 then false
  else
    intAnd3Floats (lines.getD 2 "") && intAnd3Floats (lines.getD 3 "") &&
      intAnd3Floats (lines.getD 4 "") && intAnd3Floats (lines.getD 5 "")

/-- Model of `parse_grid_line` (`lineNumber` is already 1-based). -/
def parseGridLine (line : String) (lineNumber : Nat) : RResult (Int × List FVal) :=
  match splitWs (rtrim line) with
  | p0 :: p1 :: p2 :: p3 :: _ =>
    match parseI32 p0 with
    | none => .err ("Invalid grid count at line " ++ toString lineNumber ++ ".")
    | some n =>
      match parseF64 p1, parseF64 p2, parseF64 p3 with
      | some v1, some v2, some v3 => .ok (n, [v1, v2, v3])
      | _, _, _ => .err ("Invalid grid vector value at line " ++ toString lineNumber ++ ".")
  | _ => .err ("Invalid grid line at line " ++ toString lineNumber ++ ", expected 4 values.")

/-- The three-iteration grid-line loop; `idx` is the 0-based index of the
next line. Returns the parsed grid entries, the remaining lines and the next
index. -/
def readGrids : List String → Nat → Nat → RResult (List (Int × List FVal) × List String × Nat)
  | ls, idx, 0 => .ok ([], ls, idx)
  | [], _, _ + 1 => .err "Unexpected end of file, expected grid line."
  | line :: rest, idx, k + 1 =>
    match parseGridLine line (idx + 1) with
    | .err e => .err e
    | .panicked => .panicked
    | .ok nv =>
      match readGrids rest (idx + 1) k with
      | .err e => .err e
      | .panicked => .panicked
      | .ok (gs, ls', idx') => .ok (nv :: gs, ls', idx')

/-- The atom-line loop of `cube::parse`: reads `k` atom lines, pushing onto
the four parallel arrays (coordinates are Bohr→Angstrom scaled). -/
def readAtoms : List String → Nat → Nat →
    (List Int × List FVal × List FVal × List FVal) →
    RResult ((List Int × List FVal × List FVal × List FVal) × List String × Nat)
  | ls, idx, 0, acc => .ok (acc, ls, idx)
  | [], _, _ + 1, _ => .err "Unexpected end of file, expected atom data."
  | line :: rest, idx, k + 1, acc =>
    match splitWs (rtrim line) with
    | p0 :: _p1 :: p2 :: p3 :: p4 :: _ =>
      match parseI32 p0 with
      | none => .err ("Invalid atomic number at line " ++ toString (idx + 1) ++ ".")
      | some an =>
        match parseF64 p2 with
        | none => .err ("Invalid x coordinate at line " ++ toString (idx + 1) ++ ".")
        | some x =>
          match parseF64 p3 with
          | none => .err ("Invalid y coordinate at line " ++ toString (idx + 1) ++ ".")
          | some y =>
            match parseF64 p4 with
            | none => .err ("Invalid z coordinate at line " ++ toString (idx + 1) ++ ".")
            | some z =>
              readAtoms rest (idx + 1) k
                (acc.1 ++ [an], acc.2.1 ++ [x.bohr], acc.2.2.1 ++ [y.bohr],
                  acc.2.2.2 ++ [z.bohr])
    | _ => .err ("Invalid atom data at line " ++ toString (idx + 1) ++ ", expected 5 values.")

/-- The DSET_IDS handling of `cube::parse` (runs only when the atom count was
negative). -/
def readDset (ls : List String) (idx : Nat) (dsetIds : Bool) :
    RResult (List String × Nat) :=
  if dsetIds then
    match ls with
    | [] => .err "Unexpected end of file, expected DSET_IDS line."
    | line :: rest =>
      match splitWs (rtrim line) with
      | [] => .ok (rest, idx + 1)
      | d0 :: _ =>
        let numIds := (parseI32 d0).getD 1
        if numIds ≠ 1 then
          .err ("Unsupported number of identifiers per voxel " ++ toString numIds ++
            " at line " ++ toString (idx + 1) ++ ".")
        else .ok (rest, idx + 1)
  else .ok (ls, idx)

/-- Parse every whitespace token of one data line as an `f64`. -/
def lineVals : List String → Nat → RResult (List FVal)
  | [], _ => .ok []
  | t :: ts, idx =>
    match parseF64 t with
    | none => .err ("Invalid volumetric data value at line " ++ toString (idx + 1) ++ ".")
    | some v =>
      match lineVals ts idx with
      | .err e => .err e
      | .panicked => .panicked
      | .ok vs => .ok (v :: vs)

/-- The volumetric-data loop: flatten all remaining lines into one list. -/
def collectData : List String → Nat → RResult (List FVal)
  | [], _ => .ok []
  | line :: rest, idx =>
    match lineVals (splitWs (rtrim line)) idx with
    | .err e => .err e
    | .panicked => .panicked
    | .ok vs =>
      match collectData rest (idx + 1) with
      | .err e => .err e
      | .panicked => .panicked
      | .ok vss => .ok (vs ++ vss)

/-- One row slice `cube_data_flat[idx..idx + n3]`; `none` models the
out-of-bounds slice panic. -/
def takeExact (n : Nat) (l : List FVal) : Option (List FVal × List FVal) :=
  if n ≤ l.length then some (l.take n, l.drop n) else none

/-- The inner reshape loop: `n2` rows of `n3` values. -/
def reshapeRows : Nat → Nat → List FVal → Option (List (List FVal) × List FVal)
  | 0, _, l => some ([], l)
  | k + 1, n3, l => do
    let (r, rest) ← takeExact n3 l
    let (rs, rest') ← reshapeRows k n3 rest
    pure (r :: rs, rest')

/-- The outer reshape loop: `n1` planes of `n2 × n3` values. -/
def reshapePlanes : Nat → Nat → Nat → List FVal → Option (List (List (List FVal)) × List FVal)
  | 0, _, _, l => some ([], l)
  | k + 1, n2, n3, l => do
    let (p, rest) ← reshapeRows n2 n3 l
    let (ps, rest') ← reshapePlanes k n2 n3 rest
    pure (p :: ps, rest')

/-- The multiple-values-per-voxel check of `cube::parse`: only performed
when the atom count is positive and the header has a 5th field; an
unparsable 5th field defaults to `1`. -/
def nvalCheck (natmRaw : Int) (prest : List String) : Option String :=
  if natmRaw > 0 then
    match prest with
    | p4 :: _ =>
      if (parseI32 p4).getD 1 > 1 then
        some ("Unsupported number of data values per voxel " ++
          toString ((parseI32 p4).getD 1) ++ " in cube file.")
      else none
    | [] => none
  else none

/-- Model of `cube::parse` over the file's line list. -/
def parseLines (ls : List String) (fileName : String) : RResult Node :=
  match ls with
  | [] => .err "File is empty, expected comment line 1."
  | l0 :: t0 =>
    let comment1 := rtrim l0
    match t0 with
    | [] => .err "Unexpected end of file, expected comment line 2."
    | l1 :: t1 =>
      let comment2 := rtrim l1
      match t1 with
      | [] => .err "Unexpected end of file, expected header line."
      | l2 :: t2 =>
        match splitWs (rtrim l2) with
        | p0 :: p1 :: p2 :: p3 :: prest =>
          match parseI32 p0 with
          | none => .err "Invalid number of atoms at line 3."
          | some natmRaw =>
            match nvalCheck natmRaw prest with
            | some e => .err e
            | none =>
              let dsetIds := natmRaw < 0
              let natm := unsignedAbs natmRaw
              match parseF64 p1, parseF64 p2, parseF64 p3 with
              | some o1, some o2, some o3 =>
                match readGrids t2 3 3 with
                | .err e => .err e
                | .panicked => .panicked
                | .ok (grids, ls4, idx4) =>
                  match readAtoms ls4 idx4 natm ([], [], [], []) with
                  | .err e => .err e
                  | .panicked => .panicked
                  | .ok (cols, ls5, idx5) =>
                    match readDset ls5 idx5 dsetIds with
                    | .err e => .err e
                    | .panicked => .panicked
                    | .ok (ls6, idx6) =>
                      let stepsNumber := grids.map (fun g => g.1)
                      let totalPoints :=
                        usizeMul (usizeMul (usizeOfI32 (stepsNumber.getD 0 0))
                          (usizeOfI32 (stepsNumber.getD 1 0)))
                          (usizeOfI32 (stepsNumber.getD 2 0))
                      if capOverflow 8 totalPoints then .panicked
                      else
                        match collectData ls6 idx6 with
                        | .err e => .err e
                        | .panicked => .panicked
                        | .ok flat =>
                          if flat.length ≠ totalPoints then
                            .err ("Mismatch in volumetric data: expected " ++
                              toString totalPoints ++ " points, found " ++
                              toString flat.length ++ ".")
                          else
                            match reshapePlanes (usizeOfI32 (stepsNumber.getD 0 0))
                              (usizeOfI32 (stepsNumber.getD 1 0))
                              (usizeOfI32 (stepsNumber.getD 2 0)) flat with
                            | none => .panicked
                            | some (cubeData, _) =>
                              .ok (.mk fileName volumeCubeType
                                (.cube ⟨comment1, comment2, [o1, o2, o3], stepsNumber,
                                  grids.map (fun g => g.2), cubeData⟩)
                                [.mk "CubeMol" atCoordsType
                                  (.coords ⟨cols.1, cols.2.1, cols.2.2.1, cols.2.2.2⟩) []])
              | _, _, _ => .err "Invalid origin coordinate at line 3."
        | _ => .err "Invalid header at line 3, expected at least 4 values."

/-- Model of `cube::parse`. -/
def parse (content fileName : String) : RResult Node :=
  parseLines (rustLines content) fileName

end Cube

/-! ## Shared column accumulator

The Cfour/MDL/UNEX table loops all push onto four parallel `Vec`s; `Cols`
bundles them. -/

structure Cols where
  an : List Int
  xs : List FVal
  ys : List FVal
  zs : List FVal
deriving DecidableEq

def Cols.empty : Cols := ⟨[], [], [], []⟩

def Cols.push (c : Cols) (a : Int) (x y z : FVal) : Cols :=
  ⟨c.an ++ [a], c.xs ++ [x], c.ys ++ [y], c.zs ++ [z]⟩

def Cols.toCoords (c : Cols) : AtomicCoordinates := ⟨c.an, c.xs, c.ys, c.zs⟩

/-! ## Cfour log format (`files-importer/src/parsers/cfour.rs`) -/

namespace Cfour

def SIGNATURE : String := "<<<     CCCCCC     CCCCCC   |||     CCCCCC     CCCCCC   >>>"

def MARKER : String := "Z-matrix   Atomic            Coordinates (in bohr)"

/-- Model of `cfour::test` on the file's content (reads at most
`MAX_VALIDATION_LINES = 20` lines; the signature is searched for in every
line except the first). -/
def test (content : String) : Bool :=
  ((rustLines content).take 20).drop 1 |>.any (fun l => containsSub l SIGNATURE)

/-- One row of a Cfour coordinate table: a row with at least 5 tokens
contributes fields 1-4, with `unwrap_or` defaults and Bohr→Angstrom scaling;
shorter rows contribute nothing. -/
def rowPush (line : String) (cols : Cols) : Cols :=
  match splitWs line with
  | _i0 :: i1 :: i2 :: i3 :: i4 :: _ =>
    let atNum : Int := if i1 = "0" then -1 else (parseI32 i1).getD (-1)
    let x := FVal.bohr ((parseF64 i2).getD .zero)
    let y := FVal.bohr ((parseF64 i3).getD .zero)
    let z := FVal.bohr ((parseF64 i4).getD .zero)
    cols.push atNum x y z
  | _ => cols

/-- The `Set#N` node emitted for one matched coordinate block. -/
def mkSetNode (setNum : Nat) (cols : Cols) : Node :=
  .mk ("Set#" ++ toString setNum) atCoordsType (.coords cols.toCoords) []

/-- Mode of the line loop of `cfour::parse`: scanning for the marker,
skipping the 2-line table sub-header, or inside a table. The source writes
the last two as inner loops over the shared line iterator; flattening them
into one state machine is behavior-preserving. -/
inductive Mode where
  | scan : Mode
  | skip : Nat → Mode
  | table : Cols → Mode

/-- The line loop of `cfour::parse`. A block ended by end-of-input (no `"--"`
line) is still emitted, exactly as in the source, where the inner loop simply
exhausts the iterator. -/
def go : List String → Mode → Nat → List Node → List Node
  | [], .scan, _, children => children
  | [], .skip _, setNum, children => children ++ [mkSetNode setNum Cols.empty]
  | [], .table cols, setNum, children => children ++ [mkSetNode setNum cols]
  | line :: rest, .scan, setNum, children =>
    if containsSub line MARKER then go rest (.skip 2) (setNum + 1) children
    else go rest .scan setNum children
  | _line :: rest, .skip k, setNum, children =>
    go rest (if k ≤ 1 then .table Cols.empty else .skip (k - 1)) setNum children
  | line :: rest, .table cols, setNum, children =>
    if containsSub line "--" then go rest .scan setNum (children ++ [mkSetNode setNum cols])
    else go rest (.table (rowPush line cols)) setNum children

/-- Model of `cfour::parse` (never fails: unparsable rows get defaults, and
the file-level molecule metadata stays at its initial value). -/
def parse (content fileName : String) : RResult Node :=
  .ok (.mk fileName molType (.mol ⟨0, [], 0, fileName⟩) (go (rustLines content) .scan 0 []))

end Cfour

/-! ## MDL Mol V2000 format (`files-importer/src/parsers/mdlmol2000.rs`) -/

namespace Mdlmol2000

/-- Model of `mdlmol2000::test` on the file's content (reads at most
`MAX_VALIDATION_LINES = 4` lines; line 4 must contain `" V2000"`). -/
def test (content : String) : Bool :=
  let lines := (rustLines content).take 4
  if lines.length < 4 then false else containsSub (lines.getD 3 "") " V2000"

inductive MState where
  | init | control | atom
deriving DecidableEq

structure St where
  title : String
  numAtoms : Nat
  numRead : Nat
  cols : Cols

/-- The line loop of `mdlmol2000::parse` (`n` is the 0-based line number).
Returns the children of the molecule node: one coordinates node if the atom
block completed (the source then breaks, skipping the bonds section), else
none. -/
def go (fileName : String) : List String → Nat → MState → St → RResult (List Node)
  | [], _, _, _ => .ok []
  | line :: rest, n, state, st =>
    match state with
    | .init =>
      let title := if st.title = "" then rtrim line else st.title
      let next : MState := if n = 2 then .control else .init
      go fileName rest (n + 1) next { st with title := title }
    | .control =>
      match splitWs (rtrim line) with
      | [] => .err ("Invalid control line " ++ toString (n + 1) ++ ", expected number of atoms.")
      | i0 :: irest =>
        match parseUsize i0 with
        | none =>
          .err ("Invalid control line " ++ toString (n + 1) ++ ", expected number of atoms.")
        | some numAtoms =>
          match irest with
          | [] =>
            .err ("Invalid control line " ++ toString (n + 1) ++ ", expected number of bonds.")
          | i1 :: _ =>
            match parseI32 i1 with
            | none =>
              .err ("Invalid control line " ++ toString (n + 1) ++ ", expected number of bonds.")
            | some numBonds =>
              if numAtoms = 0 then
                .err ("Invalid number of atoms " ++ toString numAtoms ++ " defined in line " ++
                  toString (n + 1) ++ ".")
              else if numBonds < 0 then
                .err ("Invalid number of bonds " ++ toString numBonds ++ " defined in line " ++
                  toString (n + 1) ++ ".")
              else if capOverflow 4 numAtoms || capOverflow 8 numAtoms then .panicked
              else
                go fileName rest (n + 1) .atom
                  { st with numAtoms := numAtoms, numRead := 0, cols := .empty }
    | .atom =>
      match splitWs (rtrim line) with
      | i0 :: i1 :: i2 :: i3 :: _ =>
        match getElementBySymbol i3 with
        | none => .err ("Invalid atom symbol at line " ++ toString (n + 1) ++ ".")
        | some atomicNum =>
          match parseF64 i0, parseF64 i1, parseF64 i2 with
          | some cx, some cy, some cz =>
            let numRead := st.numRead + 1
            let cols := st.cols.push atomicNum cx cy cz
            if numRead = st.numAtoms then
              let title := if st.title = "" then fileName else st.title
              .ok [Node.mk title atCoordsType (.coords cols.toCoords) []]
            else go fileName rest (n + 1) .atom { st with numRead := numRead, cols := cols }
          | _, _, _ =>
            .err ("Invalid atom coordinate value(s) at line " ++ toString (n + 1) ++ ".")
      | _ => .err ("Invalid atom coordinate value(s) at line " ++ toString (n + 1) ++ ".")

/-- Model of `mdlmol2000::parse` (the molecule metadata is never updated by
the source). -/
def parse (content fileName : String) : RResult Node :=
  match go fileName (rustLines content) 0 .init ⟨"", 0, 0, .empty⟩ with
  | .err e => .err e
  | .panicked => .panicked
  | .ok children => .ok (.mk fileName molType (.mol ⟨0, [], 0, fileName⟩) children)

end Mdlmol2000

/-! ## UNEX format (`chemistry-files-importer/src/parsers/unex.rs`) -/

namespace Unex

/-- Split a character list at every occurrence of `sep`. -/
def splitAllC (sep : Char) : List Char → List (List Char)
  | [] => [[]]
  | c :: cs =>
    if c = sep then [] :: splitAllC sep cs
    else
      match splitAllC sep cs with
      | [] => [[c]]
      | p :: ps => (c :: p) :: ps

/-- One character of the regex class `[a-z0-9]`. -/
def isLowerAlnum (c : Char) : Bool := c.isDigit || c.isLower

/-- Whole-token match of the version regex
`^([0-9]+)\.([0-9]+)-([0-9]+)-([a-z0-9]+)$`, returning the three numeric
captures. No character class of the regex admits `-`, so a matching token has
exactly two dashes; likewise exactly one dot, inside the first dash-part. -/
def versionCaptures (tok : String) : Option (List Char × List Char × List Char) :=
  match splitAllC '-' tok.data with
  | [mm, pa, bu] =>
    match splitAllC '.' mm with
    | [ma, mi] =>
      if allDigits ma && allDigits mi && allDigits pa &&
          (!bu.isEmpty && bu.all isLowerAlnum) then
        some (ma, mi, pa)
      else none
    | _ => none
  | _ => none

/-- Model of `get_format_version`: requires the trimmed line to start with
`"UNEX"` and the second whitespace token to match the version regex; each
capture is parsed as an `i32` (overflow gives `None`), and the fold
`1_000_000*major + 10_000*minor + patch` is `i32` arithmetic (wrapping in
release mode). -/
def getFormatVersion (line : String) : Option Int :=
  if strStartsWith (rtrim line) "UNEX" then
    match splitWs line with
    | _ :: p1 :: _ =>
      match versionCaptures p1 with
      | some (ma, mi, pa) =>
        if digitsVal ma ≤ I32_MAX ∧ digitsVal mi ≤ I32_MAX ∧ digitsVal pa ≤ I32_MAX then
          some (i32Wrap (1000000 * (digitsVal ma : Int) + 10000 * (digitsVal mi : Int) +
            (digitsVal pa : Int)))
        else none
      | none => none
    | _ => none
  else none

/-- Model of `unex::test` on the file's content (reads at most
`MAX_VALIDATION_LINES = 1` line). -/
def test (content : String) : Bool :=
  match (rustLines content).take 1 with
  | [] => false
  | l0 :: _ => (getFormatVersion l0).isSome

/-- One row of the "UNEX" tabular sub-format (shared by 1.x and 2.x): needs
at least 7 tokens, with fields 2/4/5/6 parsed; any failure means the row is
dropped (`none`), never an error. -/
def unexRowParse (line : String) : Option (Int × FVal × FVal × FVal) :=
  match splitWs line with
  | _ :: _ :: i2 :: _ :: i4 :: i5 :: i6 :: _ =>
    match parseI32 i2, parseF64 i4, parseF64 i5, parseF64 i6 with
    | some n, some x, some y, some z => some (n, x, y, z)
    | _, _, _, _ => none
  | _ => none

/-- Accumulate one "UNEX" sub-format row: a failing row leaves the columns
unchanged (silent drop). -/
def unexRowPush (line : String) (cols : Cols) : Cols :=
  match unexRowParse line with
  | some (n, x, y, z) => cols.push n x y z
  | none => cols

/-- The text before the first `'>'` of a line (`line.split('>').next()`). -/
def before (c : Char) (s : String) : String :=
  match splitFirst c s.data with
  | some (pre, _) => ⟨pre⟩
  | none => s

def MARKER_1X : String := "> Cartesian coordinates of all atoms (Angstroms) in"

def mol1xName (line : String) : String := rtrim (before '>' line)

/-- Association-list lookup (model of `HashMap::get`). -/
def aGet (m : List (String × Nat)) (k : String) : Option Nat :=
  (m.find? (fun p => p.1 = k)).map (fun p => p.2)

/-- Association-list insert-or-update (model of `HashMap::insert` /
`entry().or_insert`). -/
def aUpd : List (String × Nat) → String → Nat → List (String × Nat)
  | [], k, v => [(k, v)]
  | (k', v') :: r, k, v => if k' = k then (k, v) :: r else (k', v') :: aUpd r k v

/-- In-place update of one element (`result.children[mol_idx]`); the index is
always in range because it comes from the `molecules` map or a fresh push
(established by the grouping theorems). -/
def listModify : List Node → Nat → (Node → Node) → List Node
  | [], _, _ => []
  | a :: l, 0, f => f a :: l
  | a :: l, n + 1, f => a :: listModify l n f

def Node.pushChild (nd : Node) (c : Node) : Node :=
  match nd with
  | .mk n k d cs => .mk n k d (cs ++ [c])

/-- The grouping state of `parse_unex1x`/`parse_unex2x`: the accumulated
molecule nodes, the name → child-index map, and the per-molecule `Set#`
counters. -/
structure GroupSt where
  children : List Node
  molecules : List (String × Nat)
  setNums : List (String × Nat)

def GroupSt.empty : GroupSt := ⟨[], [], []⟩

/-- One grouping step, identical in `parse_unex1x` and `parse_unex2x`: find
or append the molecule node for `molName`, bump that molecule's own set
counter, and append a `Set#k` coordinates node under it. -/
def groupStep (st : GroupSt) (molName : String) (coords : AtomicCoordinates) : GroupSt :=
  let found := aGet st.molecules molName
  let molIdx := match found with
    | some idx => idx
    | none => st.children.length
  let children := match found with
    | some _ => st.children
    | none => st.children ++ [Node.mk molName molType Payload.empty []]
  let molecules := match found with
    | some _ => st.molecules
    | none => aUpd st.molecules molName st.children.length
  let setNum := (aGet st.setNums molName).getD 0 + 1
  let setNums := aUpd st.setNums molName setNum
  let nd : Node := .mk ("Set#" ++ toString setNum) atCoordsType (.coords coords) []
  ⟨listModify children molIdx (fun c => Node.pushChild c nd), molecules, setNums⟩

/-- Mode of the line loop of `parse_unex1x`: scanning for the marker,
skipping the 3-line table header, or inside a table (carrying the molecule
name taken from the marker line). The source writes the skip and the table as
inner loops over the shared line iterator; flattening them into one state
machine is behavior-preserving, and performing the grouping bookkeeping when
the block's node is pushed (rather than at the marker) is equivalent because
no other marker is processed in between. -/
inductive U1Mode where
  | scan : U1Mode
  | skip : Nat → String → U1Mode
  | table : String → Cols → U1Mode

/-- The line loop of `parse_unex1x`. A block ended by end-of-input is still
emitted, exactly as in the source, where the inner loop simply exhausts the
iterator. -/
def go1x : List String → U1Mode → GroupSt → GroupSt
  | [], .scan, st => st
  | [], .skip _ m, st => groupStep st m Cols.empty.toCoords
  | [], .table m cols, st => groupStep st m cols.toCoords
  | line :: rest, .scan, st =>
    if containsSub line MARKER_1X then go1x rest (.skip 3 (mol1xName line)) st
    else go1x rest .scan st
  | _line :: rest, .skip k m, st =>
    go1x rest (if k ≤ 1 then .table m Cols.empty else .skip (k - 1) m) st
  | line :: rest, .table m cols, st =>
    if containsSub line "--" then go1x rest .scan (groupStep st m cols.toCoords)
    else go1x rest (.table m (unexRowPush line cols)) st

/-- Model of `parse_unex1x` (never fails: malformed rows are dropped and the
serialization collaborator is total). -/
def parseUnex1x (content fileName : String) : RResult Node :=
  .ok (.mk fileName unexType .empty (go1x (rustLines content) .scan .empty).children)

/-! ### The grouping specification of `parse_unex1x` (C6) -/

/-- The sequence of coordinate blocks (molecule name from the marker line,
accumulated columns) emitted by the 1.x line loop, in file order: it mirrors
`go1x` line by line, recording each `groupStep` argument pair instead of
folding it into the state. -/
def occs1x : List String → U1Mode → List (String × AtomicCoordinates)
  | [], .scan => []
  | [], .skip _ m => [(m, Cols.empty.toCoords)]
  | [], .table m cols => [(m, cols.toCoords)]
  | line :: rest, .scan =>
    if containsSub line MARKER_1X then occs1x rest (.skip 3 (mol1xName line))
    else occs1x rest .scan
  | _line :: rest, .skip k m =>
    occs1x rest (if k ≤ 1 then .table m Cols.empty else .skip (k - 1) m)
  | line :: rest, .table m cols =>
    if containsSub line "--" then (m, cols.toCoords) :: occs1x rest .scan
    else occs1x rest (.table m (unexRowPush line cols))

/-- Folding the grouping step over a block sequence. -/
def groupFold (occs : List (String × AtomicCoordinates)) : GroupSt :=
  occs.foldl (fun s p => groupStep s p.1 p.2) GroupSt.empty

/-- First-seen-wins deduplication of a name sequence (the claim's "index map"
ordering). -/
def dedupFirst (l : List String) : List String :=
  l.foldl (fun acc n => if n ∈ acc then acc else acc ++ [n]) []

/-- Position of the first occurrence of a name in a list. -/
def posOf : List String → String → Option Nat
  | [], _ => none
  | a :: l, n => if a = n then some 0 else (posOf l n).map (fun i => i + 1)

/-- The `Set#` nodes for a run of blocks, numbered from `k + 1` upward. -/
def setsForAux : List AtomicCoordinates → Nat → List Node
  | [], _ => []
  | c :: r, k =>
    Node.mk ("Set#" ++ toString (k + 1)) atCoordsType (.coords c) [] :: setsForAux r (k + 1)

/-- The `Set#` children of molecule `n`: its own blocks in file order, the
`j`-th named `Set#j` — a counter private to `n`, not a global one. -/
def setsFor (occs : List (String × AtomicCoordinates)) (n : String) : List Node :=
  setsForAux ((occs.filter (fun p => p.1 == n)).map Prod.snd) 0

/-- The grouped molecule children the claim describes: one node per distinct
molecule name in first-seen order, each holding that molecule's own `Set#`
sequence. -/
def expectedChildren (occs : List (String × AtomicCoordinates)) : List Node :=
  (dedupFirst (occs.map Prod.fst)).map
    (fun n => Node.mk n molType Payload.empty (setsFor occs n))

/-- A 1.x file with interleaved molecule blocks (`MolA`, `MolB`, `MolA`),
exercising both the deduplication and the per-molecule counters. -/
def c6Content : String :=
  "UNEX 1.12-3-abc\n" ++
  "MolA > Cartesian coordinates of all atoms (Angstroms) in something\n" ++
  "h1\nh2\nh3\n" ++
  "1 H 1 w 0.0 0.0 0.0\n" ++
  "2 O 8 w 1.0 1.0 1.0\n" ++
  "----\n" ++
  "MolB > Cartesian coordinates of all atoms (Angstroms) in something\n" ++
  "h1\nh2\nh3\n" ++
  "1 H 1 w 0.0 0.0 0.0\n" ++
  "----\n" ++
  "MolA > Cartesian coordinates of all atoms (Angstroms) in something\n" ++
  "h1\nh2\nh3\n" ++
  "1 C 6 w 2.0 2.0 2.0\n" ++
  "----\n"

inductive XyzFmt where
  | invalid | unex | mol
deriving DecidableEq

/-- One row of the 2.x "MOL" sub-format: needs at least 4 tokens; field 0 is
the literal `"X"` (dummy atom) or an element symbol (unresolved symbol is a
hard error), fields 1–3 are x/y/z doubles (hard error on parse failure). A
row with fewer than 4 tokens is skipped. -/
def molRowParse (line : String) : RResult (Option (Int × FVal × FVal × FVal)) :=
  match splitWs line with
  | i0 :: i1 :: i2 :: i3 :: _ =>
    let atNumR : RResult Int :=
      if i0 = "X" then .ok (-1)
      else
        match symbolToAtomicNumber i0 with
        | some n => .ok n
        | none => .err ("Invalid atom symbol " ++ i0)
    match atNumR with
    | .err e => .err e
    | .panicked => .panicked
    | .ok atNum =>
      match parseF64 i1 with
      | none => .err "Invalid x coordinate"
      | some x =>
        match parseF64 i2 with
        | none => .err "Invalid y coordinate"
        | some y =>
          match parseF64 i3 with
          | none => .err "Invalid z coordinate"
          | some z => .ok (some (atNum, x, y, z))
  | _ => .ok none

def MARKER_2X : String := "Cartesian coordinates (Angstroms) of atoms in"

/-- Molecule name in 2.x: the 7th whitespace token of the marker line, or
`"unknown"`. -/
def mol2xName (line : String) : String :=
  let parts := splitWs line
  if parts.length > 6 then rtrim (parts.getD 6 "") else "unknown"

/-- Mode of the line loop of `parse_unex2x`: scanning for the marker; inside
the block header (declared sub-format so far, `"--"` delimiters seen,
molecule name); skipping the 2 fixed lines of a MOL header; or inside a table
of the discovered sub-format. As for 1.x, this flattens the source's inner
loops over the shared line iterator into one state machine. -/
inductive U2Mode where
  | scan : U2Mode
  | header : XyzFmt → Nat → String → U2Mode
  | skipMol : Nat → String → U2Mode
  | tableU : String → Cols → U2Mode
  | tableMol : String → Cols → U2Mode
  | tableInv : String → U2Mode

/-- The line loop of `parse_unex2x`. In the UNEX sub-format the header ends
at the second `"--"` line, otherwise at the first; an unknown declared format
is a hard error; MOL rows may abort with an error; end-of-input in any
non-scan mode still emits the pending block. -/
def go2x : List String → U2Mode → GroupSt → RResult GroupSt
  | [], .scan, st => .ok st
  | [], .header _ _ m, st => .ok (groupStep st m Cols.empty.toCoords)
  | [], .skipMol _ m, st => .ok (groupStep st m Cols.empty.toCoords)
  | [], .tableU m cols, st => .ok (groupStep st m cols.toCoords)
  | [], .tableMol m cols, st => .ok (groupStep st m cols.toCoords)
  | [], .tableInv m, st => .ok (groupStep st m Cols.empty.toCoords)
  | line :: rest, .scan, st =>
    if containsSub line MARKER_2X then go2x rest (.header .invalid 0 (mol2xName line)) st
    else go2x rest .scan st
  | line :: rest, .header fmt delim m, st =>
    if containsSub line "Format:" then
      match splitWs line with
      | _ :: f1 :: _ =>
        if f1 = "UNEX" then go2x rest (.header .unex delim m) st
        else if f1 = "MOL" then go2x rest (.header XyzFmt.mol delim m) st
        else .err ("Invalid or unknown XYZ format " ++ f1)
      | _ => go2x rest (.header fmt delim m) st
    else if containsSub line "--" then
      if fmt = XyzFmt.unex then
        if delim + 1 = 2 then go2x rest (.tableU m Cols.empty) st
        else go2x rest (.header fmt (delim + 1) m) st
      else
        match fmt with
        | XyzFmt.mol => go2x rest (.skipMol 2 m) st
        | _ => go2x rest (.tableInv m) st
    else go2x rest (.header fmt delim m) st
  | _line :: rest, .skipMol k m, st =>
    go2x rest (if k ≤ 1 then .tableMol m Cols.empty else .skipMol (k - 1) m) st
  | line :: rest, .tableU m cols, st =>
    if containsSub line "--" then go2x rest .scan (groupStep st m cols.toCoords)
    else go2x rest (.tableU m (unexRowPush line cols)) st
  | line :: rest, .tableMol m cols, st =>
    if containsSub line "--" then go2x rest .scan (groupStep st m cols.toCoords)
    else
      match molRowParse line with
      | .err e => .err e
      | .panicked => .panicked
      | .ok (some (n, x, y, z)) => go2x rest (.tableMol m (cols.push n x y z)) st
      | .ok none => go2x rest (.tableMol m cols) st
  | line :: rest, .tableInv m, st =>
    if containsSub line "--" then go2x rest .scan (groupStep st m Cols.empty.toCoords)
    else go2x rest (.tableInv m) st

/-- Model of `parse_unex2x`. -/
def parseUnex2x (content fileName : String) : RResult Node :=
  match go2x (rustLines content) .scan .empty with
  | .err e => .err e
  | .panicked => .panicked
  | .ok st => .ok (.mk fileName unexType .empty st.children)

/-- Model of `unex::parse`: decode the version from the first line and branch
between the two sub-parsers (`< 2_000_000` selects 1.x). -/
def parse (content fileName : String) : RResult Node :=
  match getFormatVersion ((rustLines content).headD "") with
  | none => .err "Invalid UNEX file format."
  | some version =>
    if version < 2000000 then parseUnex1x content fileName
    else parseUnex2x content fileName

end Unex

/-! ## Format dispatcher (`files-importer/src/lib.rs`) -/

structure FormatEntry where
  fname : String
  ftest : String → Bool
  fparse : String → String → RResult Node

/-- The `PARSERS` registry, in registration order. The recognizers re-read
the same file `load` already buffered, so they are modelled on the content. -/
def PARSERS : List FormatEntry :=
  [⟨"XYZ", Xyz.test, Xyz.parse⟩,
   ⟨"Gaussian Cube", Cube.test, Cube.parse⟩,
   ⟨"UNEX", Unex.test, Unex.parse⟩,
   ⟨"Cfour", Cfour.test, Cfour.parse⟩,
   ⟨"MDL Mol V2000", Mdlmol2000.test, Mdlmol2000.parse⟩]

def noParserMsg (fileName : String) (errs : List String) : String :=
  "No suitable parser found for file '" ++ fileName ++ "'. Errors: " ++
    String.intercalate "; " errs

/-- The dispatch loop of `ChemistryImporter::load` with its running error
list (`test` I/O failures are out of scope of the content-level model). -/
def loadAux : List FormatEntry → List String → String → String → RResult Node
  | [], errs, _, fileName => .err (noParserMsg fileName errs)
  | e :: rest, errs, content, fileName =>
    if e.ftest content then
      match e.fparse content fileName with
      | .ok node => .ok node
      | .err msg => loadAux rest (errs ++ [e.fname ++ ": " ++ msg]) content fileName
      | .panicked => .panicked
    else loadAux rest errs content fileName

/-- Model of `ChemistryImporter::load` on the file's content (the successful
path returns the parsed node; its serialization is the round-tripping
collaborator). -/
def load (content fileName : String) : RResult Node :=
  loadAux PARSERS [] content fileName

/-! ## The atomic-coordinates length invariant (C1) -/

/-- The four parallel arrays of an `AtomicCoordinates` payload have equal
length. -/
def coordsOkB (c : AtomicCoordinates) : Bool :=
  (c.x.length == c.atomic_num.length) && (c.y.length == c.atomic_num.length) &&
    (c.z.length == c.atomic_num.length)

/-- The per-node part of the invariant: a node tagged `atomic_coordinates`
must carry a coordinates payload with equal-length arrays. -/
def nodeLocalInv (kind : String) (data : Payload) : Bool :=
  if kind = atCoordsType then
    match data with
    | .coords c => coordsOkB c
    | _ => false
  else true

mutual

def nodeInvB : Node → Bool
  | .mk _ kind data children => nodeLocalInv kind data && nodeListInvB children

def nodeListInvB : List Node → Bool
  | [] => true
  | n :: ns => nodeInvB n && nodeListInvB ns

end

/-- The four columns have equal length. -/
def Cols.balancedB (c : Cols) : Bool :=
  (c.xs.length == c.an.length) && (c.ys.length == c.an.length) &&
    (c.zs.length == c.an.length)

/-- A Gaussian Cube file whose three grid counts are `-1`: `(-1) as usize`
is `2^64 - 1`, the wrapping product is again `2^64 - 1`, and
`Vec::with_capacity` of that many `f64`s aborts with a capacity overflow. -/
def c9FailingInput : String :=
  "c1\nc2\n1 0.0 0.0 0.0\n-1 0.0 0.0 0.0\n-1 0.0 0.0 0.0\n-1 0.0 0.0 0.0\n" ++
    "1 0.0 1.0 2.0 3.0\n"

/-- A cube file whose header line carries `nval = 2` but a negative atom
count (`-1`), a `1 × 1 × 1` grid, one atom line, a DSET_IDS line and exactly
one data value. -/
def c8CounterexampleInput : String :=
  "c1\nc2\n-1 0.0 0.0 0.0 2\n1 1.0 0.0 0.0\n1 0.0 1.0 0.0\n1 0.0 0.0 1.0\n" ++
    "6 6.0 1.0 2.0 3.0\n1 1\n0.5\n"

/-- The `"{name}: {error}"` entries, in registration order, for the formats
whose recognizer accepted the content but whose parser failed. -/
def attemptErrs (entries : List FormatEntry) (content fileName : String) : List String :=
  entries.filterMap (fun e =>
    if e.ftest content then
      (e.fparse content fileName).errMsg.map (fun m => e.fname ++ ": " ++ m)
    else none)

/-- A coordinate card the XYZ parser accepts: at least 4 whitespace tokens,
field 0 an integer atomic number or a known element symbol, fields 1–3
`f64`s. -/
def xyzValidCard (card : String) : Bool :=
  match splitWs (rtrim card) with
  | i0 :: i1 :: i2 :: i3 :: _ =>
    (Xyz.atomNumOfTok i0).isSome && (parseF64 i1).isSome && (parseF64 i2).isSome &&
      (parseF64 i3).isSome
  | _ => false

/-- An atom line the MDL parser accepts: at least 4 whitespace tokens, field
3 a known element symbol, fields 0–2 `f64`s. -/
def mdlValidAtom (line : String) : Bool :=
  match splitWs (rtrim line) with
  | i0 :: i1 :: i2 :: i3 :: _ =>
    (getElementBySymbol i3).isSome && (parseF64 i0).isSome && (parseF64 i1).isSome &&
      (parseF64 i2).isSome
  | _ => false

/-- A UNEX 2.x file whose MOL-format table contains an unresolvable element
symbol (`Zz`). -/
def unexMolBadSymbolInput : String :=
  "UNEX 2.0-0-x\n" ++
  "Cartesian coordinates (Angstroms) of atoms in molecule MolC :\n" ++
  "Format: MOL\n" ++
  "----\n" ++
  "skip1\nskip2\n" ++
  "O 0.0 0.0 0.0 w\n" ++
  "Zz 1.0 1.0 1.0 w\n" ++
  "----\n"

/-! # Theorems -/

/-! ## C9 — totality of the parsers -/

/-- C9: the claim states that every parser terminates with `Ok` or `Err` and
never panics or aborts, for any values of the grid counts read from the file.
The cube parser violates this: grid counts of `-1` drive
`Vec::with_capacity((n1 as usize) * (n2 as usize) * (n3 as usize))` into a
capacity-overflow abort. -/
theorem c9_cube_capacity_panic :
    Cube.parse c9FailingInput "f" = RResult.panicked := by rfl

/-! ## C8 — `nval > 1` rejection -/

/-- C8 counterexample: the claim states that every cube content whose header
carries `nval > 1` is rejected — including a negative atom count on that
header line. But the source guards the check with `natm_raw > 0`, so this
content (header `-1 0.0 0.0 0.0 2`, with `nval = 2 > 1`) parses `Ok`. -/
theorem c8_counterexample :
    parseI32 ((splitWs (rtrim ((rustLines c8CounterexampleInput).getD 2 ""))).getD 4 "") =
        some 2 ∧
      (Cube.parse c8CounterexampleInput "f").isOk = true :=
  ⟨by rfl, by rfl⟩

/-- C8 amended: when the header's atom count is positive and its fifth field
parses to `nval > 1`, `cube::parse` fails with the descriptive error; with a
non-positive atom count the `nval` field is not checked (the dataset-ID count
is checked on the separate DSET_IDS line instead). -/
theorem c8_nval_error (content fileName l0 l1 l2 : String) (rest : List String)
    (p0 p1 p2 p3 p4 : String) (prest : List String) (natmRaw nval : Int)
    (hlines : rustLines content = l0 :: l1 :: l2 :: rest)
    (hsplit : splitWs (rtrim l2) = p0 :: p1 :: p2 :: p3 :: p4 :: prest)
    (hnatm : parseI32 p0 = some natmRaw) (hpos : 0 < natmRaw)
    (hnval : parseI32 p4 = some nval) (hgt : 1 < nval) :
    Cube.parse content fileName =
      .err ("Unsupported number of data values per voxel " ++ toString nval ++
        " in cube file.") := by
  have hcheck : Cube.nvalCheck natmRaw (p4 :: prest) =
      some ("Unsupported number of data values per voxel " ++ toString nval ++
        " in cube file.") := by
    unfold Cube.nvalCheck
    rw [if_pos hpos]
    simp only [hnval, Option.getD_some]
    rw [if_pos hgt]
  unfold Cube.parse
  rw [hlines]
  unfold Cube.parseLines
  simp only [hsplit, hnatm, hcheck]

/-- C8 witness: the amended theorem applied at a concrete cube content with
atom count `1` and `nval = 2`. -/
theorem c8_nval_error_witness :
    Cube.parse "c1\nc2\n1 0.0 0.0 0.0 2\n1 1.0 0.0 0.0\n" "f" =
      .err "Unsupported number of data values per voxel 2 in cube file." := by
  have h := c8_nval_error "c1\nc2\n1 0.0 0.0 0.0 2\n1 1.0 0.0 0.0\n" "f"
    "c1" "c2" "1 0.0 0.0 0.0 2" ["1 1.0 0.0 0.0"] "1" "0.0" "0.0" "0.0" "2" [] 1 2
    rfl rfl rfl (by norm_num) rfl (by norm_num)
  exact h

/-! ## C2 — dispatcher aggregation -/

/-- Full characterization of the dispatch loop (assuming no parser panics on
the content): the first registered entry whose recognizer accepts and whose
parser succeeds determines the result, discarding accumulated errors; if
there is none, the aggregate error lists exactly the attempted-and-failed
formats with their reasons. -/
theorem loadAux_characterization (entries : List FormatEntry) (errs : List String)
    (content fileName : String)
    (hnp : ∀ e ∈ entries, (e.fparse content fileName).isPanicked = false) :
    loadAux entries errs content fileName =
      match entries.find? (fun e => e.ftest content && (e.fparse content fileName).isOk) with
      | some e => e.fparse content fileName
      | none => .err (noParserMsg fileName (errs ++ attemptErrs entries content fileName)) := by
  induction entries generalizing errs with
  | nil => simp [loadAux, attemptErrs]
  | cons e rest ih =>
    have hrest : ∀ x ∈ rest, (x.fparse content fileName).isPanicked = false :=
      fun x hx => hnp x (List.mem_cons_of_mem _ hx)
    by_cases ht : e.ftest content
    · cases hp : e.fparse content fileName with
      | ok nd =>
        rw [List.find?_cons_of_pos _ (by simp [ht, hp, RResult.isOk])]
        simp [loadAux, ht, hp]
      | err m =>
        rw [List.find?_cons_of_neg _ (by simp [ht, hp, RResult.isOk])]
        simp only [loadAux, if_pos ht, hp, ih _ hrest, attemptErrs, List.filterMap_cons,
          if_pos ht, RResult.errMsg]
        cases hfind : rest.find? (fun x => x.ftest content && (x.fparse content fileName).isOk) with
        | some x => simp [hfind]
        | none => simp [hfind, attemptErrs]
      | panicked =>
        exact absurd (hnp e (List.mem_cons_self _ _)) (by simp [hp, RResult.isPanicked])
    · rw [List.find?_cons_of_neg _ (by simp [ht])]
      simp only [loadAux, if_neg ht, ih _ hrest]
      cases hfind : rest.find? (fun x => x.ftest content && (x.fparse content fileName).isOk) with
      | some x => simp [hfind]
      | none => simp [hfind, attemptErrs, List.filterMap_cons, ht]

/-- C2 counterexample: the claim states that when zero recognizers match, the
aggregate error names all registered formats. The empty content matches zero
recognizers, yet the returned error names no format at all (its error list is
empty). -/
theorem c2_counterexample :
    PARSERS.all (fun e => !e.ftest "") = true ∧
      load "" "f" = .err "No suitable parser found for file 'f'. Errors: " ∧
      containsSub "No suitable parser found for file 'f'. Errors: " "XYZ" = false ∧
      containsSub "No suitable parser found for file 'f'. Errors: " "Gaussian Cube" = false ∧
      containsSub "No suitable parser found for file 'f'. Errors: " "UNEX" = false ∧
      containsSub "No suitable parser found for file 'f'. Errors: " "Cfour" = false ∧
      containsSub "No suitable parser found for file 'f'. Errors: " "MDL Mol V2000" = false :=
  ⟨by rfl, by rfl, by rfl, by rfl, by rfl, by rfl, by rfl⟩

/-- C2 amended: `load` tries the registered formats in order (XYZ, Gaussian
Cube, UNEX, Cfour, MDL Mol V2000); a recognized-but-failed format is recorded
as `"{name}: {error}"` and the next format is tried; the first successful
parse is returned immediately, discarding recorded errors; and when no format
both recognizes and parses the file, `load` fails with one aggregate error
listing exactly the formats actually attempted with their individual reasons
— in particular, when zero recognizers matched, the error names no formats. -/
theorem c2_dispatcher_characterization (content fileName : String)
    (hnp : PARSERS.all (fun e => !(e.fparse content fileName).isPanicked) = true) :
    load content fileName =
      match PARSERS.find? (fun e => e.ftest content && (e.fparse content fileName).isOk) with
      | some e => e.fparse content fileName
      | none => .err (noParserMsg fileName (attemptErrs PARSERS content fileName)) := by
  have h := loadAux_characterization PARSERS [] content fileName (by
    intro e he
    have := List.all_eq_true.mp hnp e he
    simpa using this)
  simpa [load] using h

/-- C2 witness: the amended characterization applied to a content that the
XYZ recognizer accepts but whose parse fails (and that no other recognizer
matches): the aggregate error names exactly the attempted format. -/
theorem c2_dispatcher_witness :
    load "1\nc\nQq 0.0 0.0 0.0\n" "f" =
      .err "No suitable parser found for file 'f'. Errors: XYZ: Invalid atom at line 3." := by
  have h := c2_dispatcher_characterization "1\nc\nQq 0.0 0.0 0.0\n" "f" (by rfl)
  exact h.trans (by rfl)

/-! ## C5 — cube volumetric-data size mismatch -/

theorem usizeOfI32_of_nonneg (z : Int) (h0 : 0 ≤ z) (h1 : z < (USIZE_MOD : Int)) :
    usizeOfI32 z = z.toNat := by
  unfold usizeOfI32
  rw [Int.emod_eq_of_lt h0 h1]

/-- C5: if a cube content's first three lines, grid lines, atom lines and
(optional) DSET_IDS line all parse, and every token of the remaining data
stream parses as an `f64`, but the number of data values differs from
`n1*n2*n3`, then `cube::parse` fails with the size-mismatch error that
reports the expected and found counts — it returns no `Ok` node, so nothing
is truncated or padded. -/
theorem c5_cube_size_mismatch (content fileName l0 l1 l2 : String)
    (rest ls4 ls5 ls6 : List String) (idx4 idx5 idx6 : Nat)
    (p0 p1 p2 p3 : String) (prest : List String)
    (natmRaw n1 n2 n3 : Int) (v1 v2 v3 : List FVal) (o1 o2 o3 : FVal)
    (cols : List Int × List FVal × List FVal × List FVal) (flat : List FVal)
    (hlines : rustLines content = l0 :: l1 :: l2 :: rest)
    (hsplit : splitWs (rtrim l2) = p0 :: p1 :: p2 :: p3 :: prest)
    (hnatm : parseI32 p0 = some natmRaw)
    (hnval : Cube.nvalCheck natmRaw prest = none)
    (ho1 : parseF64 p1 = some o1) (ho2 : parseF64 p2 = some o2) (ho3 : parseF64 p3 = some o3)
    (hgrids : Cube.readGrids rest 3 3 = .ok ([(n1, v1), (n2, v2), (n3, v3)], ls4, idx4))
    (hn1 : 0 ≤ n1) (hn2 : 0 ≤ n2) (hn3 : 0 ≤ n3)
    (hb1 : n1 ≤ 2147483647) (hb2 : n2 ≤ 2147483647) (hb3 : n3 ≤ 2147483647)
    (hsmall : n1.toNat * n2.toNat * n3.toNat ≤ 1152921504606846975)
    (hatoms : Cube.readAtoms ls4 idx4 (unsignedAbs natmRaw) ([], [], [], []) =
      .ok (cols, ls5, idx5))
    (hdset : Cube.readDset ls5 idx5 (decide (natmRaw < 0)) = .ok (ls6, idx6))
    (hdata : Cube.collectData ls6 idx6 = .ok flat)
    (hmis : flat.length ≠ n1.toNat * n2.toNat * n3.toNat) :
    Cube.parse content fileName =
      .err ("Mismatch in volumetric data: expected " ++
        toString (n1.toNat * n2.toNat * n3.toNat) ++ " points, found " ++
        toString flat.length ++ ".") := by
  have hu1 : usizeOfI32 n1 = n1.toNat := usizeOfI32_of_nonneg n1 hn1 (by simp [USIZE_MOD]; omega)
  have hu2 : usizeOfI32 n2 = n2.toNat := usizeOfI32_of_nonneg n2 hn2 (by simp [USIZE_MOD]; omega)
  have hu3 : usizeOfI32 n3 = n3.toNat := usizeOfI32_of_nonneg n3 hn3 (by simp [USIZE_MOD]; omega)
  have ht1 : n1.toNat ≤ 2147483647 := by omega
  have ht2 : n2.toNat ≤ 2147483647 := by omega
  have ht3 : n3.toNat ≤ 2147483647 := by omega
  have hm12 : usizeMul n1.toNat n2.toNat = n1.toNat * n2.toNat := by
    unfold usizeMul USIZE_MOD
    apply Nat.mod_eq_of_lt
    calc n1.toNat * n2.toNat ≤ 2147483647 * 2147483647 := Nat.mul_le_mul ht1 ht2
      _ < 18446744073709551616 := by norm_num
  have hm123 : usizeMul (n1.toNat * n2.toNat) n3.toNat = n1.toNat * n2.toNat * n3.toNat := by
    unfold usizeMul USIZE_MOD
    apply Nat.mod_eq_of_lt
    omega
  have hcap : capOverflow 8 (n1.toNat * n2.toNat * n3.toNat) = false := by
    unfold capOverflow ISIZE_MAX
    simp only [decide_eq_false_iff_not, not_lt]
    omega
  unfold Cube.parse
  rw [hlines]
  unfold Cube.parseLines
  simp only [hsplit, hnatm, hnval, ho1, ho2, ho3]
  simp only [hgrids, hatoms, hdset, hdata, List.map_cons, List.map_nil,
    List.getD_cons_zero, List.getD_cons_succ, hu1, hu2, hu3, hm12, hm123,
    hcap, Bool.false_eq_true, if_false, if_pos hmis]

/-! ## XYZ coordinate-card lemmas (used by C3 and C10) -/

/-- In the `Cards` state, a run of valid cards shorter than the missing count
is consumed without emitting a node or an error: the loop just ends. -/
theorem xyz_go_cards_incomplete (f : String) (cards : List String) :
    ∀ (n : Nat) (st : Xyz.St), st.state = .cards →
      (∀ c ∈ cards, xyzValidCard c = true) →
      st.numRead + cards.length < st.numAtoms →
      ∃ st', Xyz.go f cards n st = .ok st' ∧ st'.children = st.children := by
  induction cards with
  | nil => intro n st _ _ _; exact ⟨st, rfl, rfl⟩
  | cons c cs ih =>
    intro n st hstate hvalid hlt
    obtain ⟨state, numAtoms, numRead, title, an, xs, ys, zs, children, molData⟩ := st
    simp only [Xyz.St.state] at hstate
    subst hstate
    have hc := hvalid c (List.mem_cons_self _ _)
    unfold xyzValidCard at hc
    simp only [Xyz.St.numRead, Xyz.St.numAtoms, List.length_cons] at hlt
    cases hm : splitWs (rtrim c) with
    | nil => rw [hm] at hc; simp at hc
    | cons i0 rest0 =>
      cases rest0 with
      | nil => rw [hm] at hc; simp at hc
      | cons i1 rest1 =>
        cases rest1 with
        | nil => rw [hm] at hc; simp at hc
        | cons i2 rest2 =>
          cases rest2 with
          | nil => rw [hm] at hc; simp at hc
          | cons i3 rest3 =>
            rw [hm] at hc
            simp only [Bool.and_eq_true, Option.isSome_iff_exists] at hc
            obtain ⟨⟨⟨⟨a, ha⟩, ⟨vx, hx⟩⟩, ⟨vy, hy⟩⟩, ⟨vz, hz⟩⟩ := hc
            simp only [Xyz.go, hm, ha, hx, hy, hz]
            rw [if_neg (show ¬(numRead + 1 = numAtoms) by omega)]
            obtain ⟨st', h1, h2⟩ := ih (n + 1)
              ⟨.cards, numAtoms, numRead + 1, title, an ++ [a], xs ++ [vx], ys ++ [vy],
                zs ++ [vz], children, molData⟩ rfl
              (fun x hx => hvalid x (List.mem_cons_of_mem _ hx))
              (by simpa using (by omega : numRead + 1 + cs.length < numAtoms))
            exact ⟨st', h1, h2⟩

/-- In the `Cards` state, a run of valid cards that exactly exhausts the
expected count emits one `atomic_coordinates` node (whose four arrays grow by
the number of cards) and returns to `Init` for the remaining lines. -/
theorem xyz_go_cards_complete (f : String) (cards : List String) :
    ∀ (more : List String) (n : Nat) (st : Xyz.St), st.state = .cards →
      (∀ c ∈ cards, xyzValidCard c = true) →
      cards ≠ [] →
      st.numRead + cards.length = st.numAtoms →
      ∃ an xs ys zs,
        an.length = st.an.length + cards.length ∧
        xs.length = st.xs.length + cards.length ∧
        ys.length = st.ys.length + cards.length ∧
        zs.length = st.zs.length + cards.length ∧
        Xyz.go f (cards ++ more) n st =
          Xyz.go f more (n + cards.length)
            ⟨.init, st.numAtoms, st.numAtoms, st.title, an, xs, ys, zs,
              st.children ++ [Node.mk st.title atCoordsType (.coords ⟨an, xs, ys, zs⟩) []],
              ⟨i32OfUsizeWrap st.numAtoms, an, 0, f⟩⟩ := by
  induction cards with
  | nil => intro _ _ _ _ _ habs _; exact absurd rfl habs
  | cons c cs ih =>
    intro more n st hstate hvalid _ hsum
    obtain ⟨state, numAtoms, numRead, title, an, xs, ys, zs, children, molData⟩ := st
    simp only [Xyz.St.state] at hstate
    subst hstate
    have hc := hvalid c (List.mem_cons_self _ _)
    unfold xyzValidCard at hc
    simp only [Xyz.St.numRead, Xyz.St.numAtoms, List.length_cons] at hsum
    cases hm : splitWs (rtrim c) with
    | nil => rw [hm] at hc; simp at hc
    | cons i0 rest0 =>
      cases rest0 with
      | nil => rw [hm] at hc; simp at hc
      | cons i1 rest1 =>
        cases rest1 with
        | nil => rw [hm] at hc; simp at hc
        | cons i2 rest2 =>
          cases rest2 with
          | nil => rw [hm] at hc; simp at hc
          | cons i3 rest3 =>
            rw [hm] at hc
            simp only [Bool.and_eq_true, Option.isSome_iff_exists] at hc
            obtain ⟨⟨⟨⟨a, ha⟩, ⟨vx, hx⟩⟩, ⟨vy, hy⟩⟩, ⟨vz, hz⟩⟩ := hc
            simp only [List.cons_append, Xyz.go, hm, ha, hx, hy, hz]
            cases cs with
            | nil =>
              have hdone : numRead + 1 = numAtoms := by
                simp only [List.length_nil] at hsum
                omega
              rw [if_pos hdone]
              refine ⟨an ++ [a], xs ++ [vx], ys ++ [vy], zs ++ [vz], by simp, by simp,
                by simp, by simp, ?_⟩
              simp only [List.nil_append, List.length_cons, List.length_nil]
              rw [hdone]
              simp
            | cons c2 cs2 =>
              rw [if_neg (show ¬(numRead + 1 = numAtoms) by
                simp only [List.length_cons] at hsum; omega)]
              obtain ⟨an', xs', ys', zs', hla, hlx, hly, hlz, hgo⟩ := ih more (n + 1)
                ⟨.cards, numAtoms, numRead + 1, title, an ++ [a], xs ++ [vx], ys ++ [vy],
                  zs ++ [vz], children, molData⟩ rfl
                (fun x hx => hvalid x (List.mem_cons_of_mem _ hx)) (by simp)
                (by show numRead + 1 + (c2 :: cs2).length = numAtoms
                    simp only [List.length_cons] at hsum ⊢
                    omega)
              simp only [List.length_append, List.length_cons, List.length_nil] at hla hlx hly hlz
              refine ⟨an', xs', ys', zs', by simp only [List.length_cons]; omega,
                by simp only [List.length_cons]; omega,
                by simp only [List.length_cons]; omega,
                by simp only [List.length_cons]; omega, ?_⟩
              have harith : n + (c :: c2 :: cs2).length = n + 1 + (c2 :: cs2).length := by
                simp only [List.length_cons]
                omega
              rw [harith]
              exact hgo

/-! ## MDL atom-line lemma (used by C10) -/

/-- In the `Atom` state, a run of valid atom lines shorter than the missing
count is consumed without emitting a node or an error: the loop just ends
with no children. -/
theorem mdl_go_atoms_incomplete (f : String) (lines : List String) :
    ∀ (n : Nat) (st : Mdlmol2000.St),
      (∀ l ∈ lines, mdlValidAtom l = true) →
      st.numRead + lines.length < st.numAtoms →
      Mdlmol2000.go f lines n .atom st = .ok [] := by
  induction lines with
  | nil => intro n st _ _; rfl
  | cons l ls ih =>
    intro n st hvalid hlt
    obtain ⟨title, numAtoms, numRead, cols⟩ := st
    simp only [Mdlmol2000.St.numRead, Mdlmol2000.St.numAtoms, List.length_cons] at hlt
    have hl := hvalid l (List.mem_cons_self _ _)
    unfold mdlValidAtom at hl
    cases hm : splitWs (rtrim l) with
    | nil => rw [hm] at hl; simp at hl
    | cons i0 rest0 =>
      cases rest0 with
      | nil => rw [hm] at hl; simp at hl
      | cons i1 rest1 =>
        cases rest1 with
        | nil => rw [hm] at hl; simp at hl
        | cons i2 rest2 =>
          cases rest2 with
          | nil => rw [hm] at hl; simp at hl
          | cons i3 rest3 =>
            rw [hm] at hl
            simp only [Bool.and_eq_true, Option.isSome_iff_exists] at hl
            obtain ⟨⟨⟨⟨a, ha⟩, ⟨vx, hx⟩⟩, ⟨vy, hy⟩⟩, ⟨vz, hz⟩⟩ := hl
            simp only [Mdlmol2000.go, hm, ha, hx, hy, hz]
            rw [if_neg (show ¬(numRead + 1 = numAtoms) by omega)]
            exact ih (n + 1) ⟨title, numAtoms, numRead + 1, cols.push a vx vy vz⟩
              (fun x hx => hvalid x (List.mem_cons_of_mem _ hx)) (by simpa using by omega)

/-! ## C3 — well-formed single-block XYZ content -/

/-- C3: for content whose lines are a header parsing to a positive count `N`,
a comment line, and exactly `N` valid coordinate cards, `xyz::parse` returns
`Ok` with exactly one `atomic_coordinates` child whose four arrays each have
length `N`. (`N` is bounded so that `Vec::with_capacity(N)` does not abort;
cf. C9.) -/
theorem c3_xyz_single_block (content fileName hline comment : String) (cards : List String)
    (N : Nat)
    (hlines : rustLines content = hline :: comment :: cards)
    (hN : parseUsize (rtrim hline) = some N) (hpos : 0 < N)
    (hcap4 : capOverflow 4 N = false) (hcap8 : capOverflow 8 N = false)
    (hlen : cards.length = N)
    (hvalid : ∀ c ∈ cards, xyzValidCard c = true) :
    ∃ title co,
      Xyz.parse content fileName =
        .ok (Node.mk fileName molType
          (.mol ⟨i32OfUsizeWrap N, co.atomic_num, 0, fileName⟩)
          [Node.mk title atCoordsType (.coords co) []]) ∧
      co.atomic_num.length = N ∧ co.x.length = N ∧ co.y.length = N ∧ co.z.length = N := by
  have hne : rtrim hline ≠ "" := by
    intro h
    rw [h] at hN
    simp [parseUsize, allDigits] at hN
  unfold Xyz.parse
  rw [hlines]
  simp only [Xyz.go, Xyz.initSt, if_neg hne, hN]
  rw [if_neg (by omega)]
  simp only [Xyz.go, hcap4, hcap8, Bool.or_self, Bool.false_eq_true, if_false]
  obtain ⟨an, xs, ys, zs, hla, hlx, hly, hlz, hgo⟩ :=
    xyz_go_cards_complete fileName cards [] 2
      ⟨.cards, N, 0, if rtrim comment = "" then "Set@line=" ++ toString 1 else rtrim comment,
        [], [], [], [], [], ⟨0, [], 0, fileName⟩⟩
      rfl hvalid (by intro h; rw [h] at hlen; simp at hlen; omega) (by simp [hlen])
  rw [List.append_nil] at hgo
  rw [hgo]
  simp only [Xyz.go]
  refine ⟨_, ⟨an, xs, ys, zs⟩, rfl, ?_, ?_, ?_, ?_⟩ <;> simp_all

/-- C3 witness: the spec's scenario input (§8) through the theorem. -/
theorem c3_xyz_single_block_witness :
    ∃ title co,
      Xyz.parse "2\nwater\nO 0.0 0.0 0.0\nH 0.0 0.0 0.96\n" "f" =
        .ok (Node.mk "f" molType (.mol ⟨i32OfUsizeWrap 2, co.atomic_num, 0, "f"⟩)
          [Node.mk title atCoordsType (.coords co) []]) ∧
      co.atomic_num.length = 2 ∧ co.x.length = 2 ∧ co.y.length = 2 ∧ co.z.length = 2 := by
  exact c3_xyz_single_block "2\nwater\nO 0.0 0.0 0.0\nH 0.0 0.0 0.96\n" "f" "2" "water"
    ["O 0.0 0.0 0.0", "H 0.0 0.0 0.96"] 2 rfl rfl (by norm_num) rfl rfl rfl
    (by intro c hc; fin_cases hc <;> rfl)

/-- C5 witness: a `1 × 1 × 1` grid with two data values fails with the
size-mismatch error. -/
theorem c5_cube_size_mismatch_witness :
    Cube.parse
        "c1\nc2\n1 0.0 0.0 0.0\n1 1.0 0.0 0.0\n1 0.0 1.0 0.0\n1 0.0 0.0 1.0\n6 6.0 1.0 2.0 3.0\n0.5 0.7\n"
        "f" =
      .err "Mismatch in volumetric data: expected 1 points, found 2." := by
  have h := c5_cube_size_mismatch
    "c1\nc2\n1 0.0 0.0 0.0\n1 1.0 0.0 0.0\n1 0.0 1.0 0.0\n1 0.0 0.0 1.0\n6 6.0 1.0 2.0 3.0\n0.5 0.7\n"
    "f" "c1" "c2" "1 0.0 0.0 0.0"
    ["1 1.0 0.0 0.0", "1 0.0 1.0 0.0", "1 0.0 0.0 1.0", "6 6.0 1.0 2.0 3.0", "0.5 0.7"]
    ["6 6.0 1.0 2.0 3.0", "0.5 0.7"] ["0.5 0.7"] ["0.5 0.7"] 6 7 7
    "1" "0.0" "0.0" "0.0" [] 1 1 1 1
    [FVal.lit "1.0", FVal.lit "0.0", FVal.lit "0.0"]
    [FVal.lit "0.0", FVal.lit "1.0", FVal.lit "0.0"]
    [FVal.lit "0.0", FVal.lit "0.0", FVal.lit "1.0"]
    (FVal.lit "0.0") (FVal.lit "0.0") (FVal.lit "0.0")
    ([6], [FVal.bohr (FVal.lit "1.0")], [FVal.bohr (FVal.lit "2.0")],
      [FVal.bohr (FVal.lit "3.0")])
    [FVal.lit "0.5", FVal.lit "0.7"]
    rfl rfl rfl rfl rfl rfl rfl rfl
    (by norm_num) (by norm_num) (by norm_num) (by norm_num) (by norm_num) (by norm_num)
    (by norm_num) rfl rfl rfl (by norm_num)
  exact h

/-! ## C10 — silently omitted incomplete trailing blocks -/

/-- C10: (XYZ) when the input ends while fewer than `N` valid cards of the
current block have been read, `parse` returns `Ok` containing only the
previously completed blocks — here, one complete block followed by a
truncated one yields exactly one child and no error; (MDL) when the input
ends before atom-count atom lines have been read, `parse` returns `Ok` with a
molecule node that has zero children. -/
theorem c10_truncated_blocks :
    (∀ (content fileName h1 c1 h2 c2 : String) (cards1 cards2 : List String) (N1 N2 : Nat),
      rustLines content = h1 :: c1 :: (cards1 ++ h2 :: c2 :: cards2) →
      parseUsize (rtrim h1) = some N1 → 0 < N1 →
      capOverflow 4 N1 = false → capOverflow 8 N1 = false →
      cards1.length = N1 → (∀ c ∈ cards1, xyzValidCard c = true) →
      parseUsize (rtrim h2) = some N2 → 0 < N2 →
      capOverflow 4 N2 = false → capOverflow 8 N2 = false →
      cards2.length < N2 → (∀ c ∈ cards2, xyzValidCard c = true) →
      ∃ nd, Xyz.parse content fileName = .ok nd ∧ nd.children.length = 1) ∧
    (∀ (content fileName l0 l1 l2 ctrl : String) (atomLines : List String)
      (i0 i1 : String) (irest : List String) (numAtoms : Nat) (numBonds : Int),
      rustLines content = l0 :: l1 :: l2 :: ctrl :: atomLines →
      splitWs (rtrim ctrl) = i0 :: i1 :: irest →
      parseUsize i0 = some numAtoms → numAtoms ≠ 0 →
      parseI32 i1 = some numBonds → ¬numBonds < 0 →
      capOverflow 4 numAtoms = false → capOverflow 8 numAtoms = false →
      atomLines.length < numAtoms → (∀ l ∈ atomLines, mdlValidAtom l = true) →
      Mdlmol2000.parse content fileName =
        .ok (Node.mk fileName molType (.mol ⟨0, [], 0, fileName⟩) [])) := by
  constructor
  · intro content fileName h1 c1 h2 c2 cards1 cards2 N1 N2 hlines hN1 hpos1 hc41 hc81
      hlen1 hv1 hN2 hpos2 hc42 hc82 hlen2 hv2
    have hne1 : rtrim h1 ≠ "" := by
      intro h; rw [h] at hN1; simp [parseUsize, allDigits] at hN1
    have hne2 : rtrim h2 ≠ "" := by
      intro h; rw [h] at hN2; simp [parseUsize, allDigits] at hN2
    unfold Xyz.parse
    rw [hlines]
    simp only [Xyz.go, Xyz.initSt, if_neg hne1, hN1]
    rw [if_neg (by omega)]
    simp only [Xyz.go, hc41, hc81, Bool.or_self, Bool.false_eq_true, if_false]
    obtain ⟨an, xs, ys, zs, _, _, _, _, hgo⟩ :=
      xyz_go_cards_complete fileName cards1 (h2 :: c2 :: cards2) 2
        ⟨.cards, N1, 0, if rtrim c1 = "" then "Set@line=" ++ toString 1 else rtrim c1,
          [], [], [], [], [], ⟨0, [], 0, fileName⟩⟩
        rfl hv1 (by intro h; rw [h] at hlen1; simp at hlen1; omega) (by simp [hlen1])
    rw [hgo]
    simp only [Xyz.go, if_neg hne2, hN2]
    rw [if_neg (by omega)]
    simp only [Xyz.go, hc42, hc82, Bool.or_self, Bool.false_eq_true, if_false]
    obtain ⟨st', hgo2, hch⟩ :=
      xyz_go_cards_incomplete fileName cards2 (2 + cards1.length + 2)
        ⟨.cards, N2, 0,
          if rtrim c2 = "" then "Set@line=" ++ toString (2 + cards1.length + 1)
          else rtrim c2,
          [], [], [], [],
          [] ++ [Node.mk
            (if rtrim c1 = "" then "Set@line=" ++ toString 1 else rtrim c1)
            atCoordsType (.coords ⟨an, xs, ys, zs⟩) []],
          ⟨i32OfUsizeWrap N1, an, 0, fileName⟩⟩
        rfl hv2 (by simpa using by omega)
    rw [hgo2]
    refine ⟨_, rfl, ?_⟩
    simp only [Node.children, hch]
    simp
  · intro content fileName l0 l1 l2 ctrl atomLines i0 i1 irest numAtoms numBonds
      hlines hsplit hi0 hnz hi1 hnb hc4 hc8 hlt hv
    unfold Mdlmol2000.parse
    rw [hlines]
    simp only [Mdlmol2000.go, hsplit, hi0, hi1,
      show (if (0 : Nat) = 2 then Mdlmol2000.MState.control else .init) = .init from rfl,
      show (if (0 + 1 : Nat) = 2 then Mdlmol2000.MState.control else .init) = .init from rfl,
      show (if (0 + 1 + 1 : Nat) = 2 then Mdlmol2000.MState.control else .init) = .control
        from rfl,
      show (if (0 + 1 + 1 + 1 : Nat) = 2 then Mdlmol2000.MState.control else .init) = .init
        from rfl, if_true]
    rw [if_neg hnz, if_neg hnb]
    simp only [hc4, hc8, Bool.or_self, Bool.false_eq_true, if_false]
    rw [mdl_go_atoms_incomplete fileName atomLines 4 ⟨_, numAtoms, 0, .empty⟩ hv
      (by simpa using hlt)]

/-! ## C7 — silent drop vs. hard error in the UNEX tables -/

/-- C7: in the "UNEX" tabular sub-format (1.x, and 2.x with declared format
UNEX), a row with fewer than 7 tokens, or whose fields 2/4/5/6 fail to parse,
is silently dropped: `parse_unex1x` never fails at all, and a failing row is
skipped with no other effect in both the 1.x and 2.x table loops. In the 2.x
"MOL" sub-format, by contrast, a row with an unresolved element symbol or an
unparseable x coordinate produces a hard error, and a row error aborts the
whole parse. -/
theorem c7_unex_row_asymmetry :
    (∀ content fileName, (Unex.parseUnex1x content fileName).isOk = true) ∧
    (∀ line, (splitWs line).length < 7 → Unex.unexRowParse line = none) ∧
    (∀ line rest m cols st, containsSub line "--" = false →
      Unex.unexRowParse line = none →
      Unex.go1x (line :: rest) (.table m cols) st = Unex.go1x rest (.table m cols) st ∧
      Unex.go2x (line :: rest) (.tableU m cols) st = Unex.go2x rest (.tableU m cols) st) ∧
    (∀ line i0 i1 i2 i3 r, splitWs line = i0 :: i1 :: i2 :: i3 :: r → i0 ≠ "X" →
      symbolToAtomicNumber i0 = none →
      Unex.molRowParse line = .err ("Invalid atom symbol " ++ i0)) ∧
    (∀ line i0 i1 i2 i3 r, splitWs line = i0 :: i1 :: i2 :: i3 :: r →
      (i0 = "X" ∨ (symbolToAtomicNumber i0).isSome = true) → parseF64 i1 = none →
      Unex.molRowParse line = .err "Invalid x coordinate") ∧
    (∀ line rest m cols st e, containsSub line "--" = false →
      Unex.molRowParse line = .err e →
      Unex.go2x (line :: rest) (.tableMol m cols) st = .err e) ∧
    Unex.parse unexMolBadSymbolInput "f" = .err "Invalid atom symbol Zz" := by
  refine ⟨fun _ _ => rfl, ?_, ?_, ?_, ?_, ?_, by rfl⟩
  · intro line hlen
    unfold Unex.unexRowParse
    split
    · rename_i heq
      rw [heq] at hlen
      simp at hlen
      omega
    · rfl
  · intro line rest m cols st hsep hrow
    constructor
    · simp only [Unex.go1x, hsep, Bool.false_eq_true, if_false, Unex.unexRowPush, hrow]
    · simp only [Unex.go2x, hsep, Bool.false_eq_true, if_false, Unex.unexRowPush, hrow]
  · intro line i0 i1 i2 i3 r hsplit hnx hsym
    unfold Unex.molRowParse
    simp only [hsplit, if_neg hnx, hsym]
  · intro line i0 i1 i2 i3 r hsplit hres hx
    unfold Unex.molRowParse
    rcases hres with h | h
    · simp only [hsplit, if_pos h, hx]
    · obtain ⟨a, ha⟩ := Option.isSome_iff_exists.mp h
      by_cases hX : i0 = "X"
      · simp only [hsplit, if_pos hX, hx]
      · simp only [hsplit, if_neg hX, ha, hx]
  · intro line rest m cols st e hsep hrow
    simp only [Unex.go2x, hsep, Bool.false_eq_true, if_false, hrow]

/-- C7 witness: the general clauses applied to concrete rows — a 6-token row
is dropped in a 1.x table without affecting the result, and a MOL row with
the unknown symbol `Zz` is a hard error that aborts the table loop. -/
theorem c7_unex_row_asymmetry_witness :
    Unex.go1x ["1 H 1 w 0.0 0.0"] (.table "M" Cols.empty) Unex.GroupSt.empty =
      Unex.go1x [] (.table "M" Cols.empty) Unex.GroupSt.empty ∧
    Unex.molRowParse "Zz 1.0 1.0 1.0 w" = .err "Invalid atom symbol Zz" ∧
    Unex.go2x ["Zz 1.0 1.0 1.0 w"] (.tableMol "M" Cols.empty) Unex.GroupSt.empty =
      .err "Invalid atom symbol Zz" := by
  refine ⟨?_, ?_, ?_⟩
  · exact (c7_unex_row_asymmetry.2.2.1 "1 H 1 w 0.0 0.0" [] "M" Cols.empty Unex.GroupSt.empty
      rfl (c7_unex_row_asymmetry.2.1 "1 H 1 w 0.0 0.0" (by decide))).1
  · exact c7_unex_row_asymmetry.2.2.2.1 "Zz 1.0 1.0 1.0 w" "Zz" "1.0" "1.0" "1.0" ["w"]
      rfl (by decide) rfl
  · exact c7_unex_row_asymmetry.2.2.2.2.2.1 "Zz 1.0 1.0 1.0 w" [] "M" Cols.empty
      Unex.GroupSt.empty "Invalid atom symbol Zz" rfl
      (c7_unex_row_asymmetry.2.2.2.1 "Zz 1.0 1.0 1.0 w" "Zz" "1.0" "1.0" "1.0" ["w"]
        rfl (by decide) rfl)

/-! ## C4 — UNEX version decoding -/

theorem isWs_cases (c : Char) (h : isWs c = true) :
    c = ' ' ∨ c = '\t' ∨ c = '\n' ∨ c = '\r' ∨ c = '\x0b' ∨ c = '\x0c' := by
  simp only [isWs, Bool.or_eq_true, decide_eq_true_eq] at h
  tauto

theorem not_ws_of_digit (c : Char) (h : c.isDigit = true) : isWs c = false := by
  cases hw : isWs c
  · rfl
  · rcases isWs_cases c hw with h' | h' | h' | h' | h' | h' <;> subst h' <;>
      exact absurd h (by decide)

theorem not_ws_of_lowerAlnum (c : Char) (h : Unex.isLowerAlnum c = true) : isWs c = false := by
  cases hw : isWs c
  · rfl
  · rcases isWs_cases c hw with h' | h' | h' | h' | h' | h' <;> subst h' <;>
      exact absurd h (by decide)

theorem not_mem_of_all (p : Char → Bool) (d : Char) (l : List Char)
    (hl : l.all p = true) (hd : p d = false) : d ∉ l := by
  intro hm
  have := List.all_eq_true.mp hl d hm
  rw [this] at hd
  cases hd

theorem splitAllC_no_sep (sep : Char) (l : List Char) (h : sep ∉ l) :
    Unex.splitAllC sep l = [l] := by
  induction l with
  | nil => rfl
  | cons c cs ih =>
    have hcs : sep ∉ cs := fun hm => h (List.mem_cons_of_mem _ hm)
    have hc : ¬(c = sep) := fun he => h (he ▸ List.mem_cons_self _ _)
    simp only [Unex.splitAllC, if_neg hc, ih hcs]

theorem splitAllC_append (sep : Char) (a b : List Char) (h : sep ∉ a) :
    Unex.splitAllC sep (a ++ sep :: b) = a :: Unex.splitAllC sep b := by
  induction a with
  | nil => simp [Unex.splitAllC]
  | cons c cs ih =>
    have hcs : sep ∉ cs := fun hm => h (List.mem_cons_of_mem _ hm)
    have hc : ¬(c = sep) := fun he => h (he ▸ List.mem_cons_self _ _)
    simp only [List.cons_append, Unex.splitAllC, if_neg hc, List.append_eq, ih hcs]

theorem wsTokensAux_all_non_ws (l : List Char) :
    ∀ cur : List Char, (∀ c ∈ l, isWs c = false) →
      wsTokensAux l cur =
        if (cur.reverse ++ l).isEmpty then [] else [String.mk (cur.reverse ++ l)] := by
  induction l with
  | nil =>
    intro cur _
    simp only [wsTokensAux, List.append_nil]
    rcases cur with _ | ⟨c, cs⟩
    · rfl
    · simp
  | cons c cs ih =>
    intro cur h
    have hc := h c (List.mem_cons_self _ _)
    simp only [wsTokensAux, hc, Bool.false_eq_true, if_false]
    rw [ih (c :: cur) (fun x hx => h x (List.mem_cons_of_mem _ hx))]
    simp [List.append_assoc]

theorem splitWs_token (t : List Char) (h : ∀ c ∈ t, isWs c = false) (hne : t ≠ []) :
    wsTokensAux t [] = [String.mk t] := by
  rw [wsTokensAux_all_non_ws t [] h]
  simp only [List.reverse_nil, List.nil_append]
  rcases t with _ | ⟨c, cs⟩
  · exact absurd rfl hne
  · rfl

theorem i32Wrap_of_small (v : Int) (h0 : 0 ≤ v) (h1 : v ≤ 2147483647) : i32Wrap v = v := by
  unfold i32Wrap
  rw [Int.emod_eq_of_lt h0 (by omega)]
  simp only [ge_iff_le]
  rw [if_neg (by omega)]

theorem trimChars_UNEX_line (t' : List Char) (c : Char) (hc : isWs c = false) :
    trimChars ('U' :: 'N' :: 'E' :: 'X' :: ' ' :: (t' ++ [c])) =
      'U' :: 'N' :: 'E' :: 'X' :: ' ' :: (t' ++ [c]) := by
  unfold trimChars
  rw [List.dropWhile_cons, if_neg (by decide)]
  have hrev : ('U' :: 'N' :: 'E' :: 'X' :: ' ' :: (t' ++ [c])).reverse =
      c :: ('U' :: 'N' :: 'E' :: 'X' :: ' ' :: t').reverse := by
    rw [show 'U' :: 'N' :: 'E' :: 'X' :: ' ' :: (t' ++ [c]) =
      ('U' :: 'N' :: 'E' :: 'X' :: ' ' :: t') ++ [c] by simp]
    rw [List.reverse_append]
    rfl
  rw [hrev, List.dropWhile_cons, if_neg (by simp [hc]), ← hrev, List.reverse_reverse]

/-- C4: the two decoding examples; selection of the 1.x/2.x sub-parser by
comparing the decoded version with `2_000_000` (the boundary value selects
2.x); and the general decoding law: a version token with numeric captures
`major`, `minor`, `patch` (and a build tag) decodes to
`major*1_000_000 + minor*10_000 + patch` whenever that fold fits in an `i32`
(beyond that the source's `i32` arithmetic would wrap; cf. the model). -/
theorem c4_unex_version_decoding :
    Unex.getFormatVersion "UNEX 1.12-3-abc" = some 1120003 ∧
    Unex.getFormatVersion "UNEX 2.0-0-x" = some 2000000 ∧
    (∀ content fileName v,
      Unex.getFormatVersion ((rustLines content).headD "") = some v →
      (v < 2000000 → Unex.parse content fileName = Unex.parseUnex1x content fileName) ∧
      (2000000 ≤ v → Unex.parse content fileName = Unex.parseUnex2x content fileName)) ∧
    (∀ ma mi pa bu : List Char,
      allDigits ma = true → allDigits mi = true → allDigits pa = true →
      bu ≠ [] → bu.all Unex.isLowerAlnum = true →
      1000000 * digitsVal ma + 10000 * digitsVal mi + digitsVal pa ≤ 2147483647 →
      Unex.getFormatVersion
        (String.mk ('U' :: 'N' :: 'E' :: 'X' :: ' ' ::
          (ma ++ '.' :: mi ++ '-' :: pa ++ '-' :: bu))) =
        some (1000000 * (digitsVal ma : Int) + 10000 * (digitsVal mi : Int) +
          (digitsVal pa : Int))) := by
  refine ⟨by rfl, by rfl, ?_, ?_⟩
  · intro content fileName v hv
    constructor
    · intro hlt
      unfold Unex.parse
      rw [hv]
      show (if v < 2000000 then Unex.parseUnex1x content fileName
        else Unex.parseUnex2x content fileName) = _
      rw [if_pos hlt]
    · intro hge
      unfold Unex.parse
      rw [hv]
      show (if v < 2000000 then Unex.parseUnex1x content fileName
        else Unex.parseUnex2x content fileName) = _
      rw [if_neg (show ¬(v < 2000000) by omega)]
  · intro ma mi pa bu hma hmi hpa hbu hbu2 hfold
    have hmaD : ma.all Char.isDigit = true := by
      have h' := hma
      unfold allDigits at h'
      simp only [Bool.and_eq_true] at h'
      exact h'.2
    have hmiD : mi.all Char.isDigit = true := by
      have h' := hmi
      unfold allDigits at h'
      simp only [Bool.and_eq_true] at h'
      exact h'.2
    have hpaD : pa.all Char.isDigit = true := by
      have h' := hpa
      unfold allDigits at h'
      simp only [Bool.and_eq_true] at h'
      exact h'.2
    have htok : ∀ c ∈ (ma ++ '.' :: mi ++ '-' :: pa ++ '-' :: bu), isWs c = false := by
      intro c hc
      simp only [List.mem_append, List.mem_cons] at hc
      rcases hc with ((h | h | h) | h | h) | h | h
      · exact not_ws_of_digit c (List.all_eq_true.mp hmaD c h)
      · subst h; decide
      · exact not_ws_of_digit c (List.all_eq_true.mp hmiD c h)
      · subst h; decide
      · exact not_ws_of_digit c (List.all_eq_true.mp hpaD c h)
      · subst h; decide
      · exact not_ws_of_lowerAlnum c (List.all_eq_true.mp hbu2 c h)
    have htokne : (ma ++ '.' :: mi ++ '-' :: pa ++ '-' :: bu) ≠ [] := by simp
    obtain ⟨bu', bc, hbc⟩ : ∃ bu' bc, bu = bu' ++ [bc] := by
      rcases List.eq_nil_or_concat bu with h' | ⟨bu', bc, h'⟩
      · exact absurd h' hbu
      · exact ⟨bu', bc, by simpa using h'⟩
    have hline : ('U' :: 'N' :: 'E' :: 'X' :: ' ' ::
        (ma ++ '.' :: mi ++ '-' :: pa ++ '-' :: bu)) =
        'U' :: 'N' :: 'E' :: 'X' :: ' ' ::
          ((ma ++ '.' :: mi ++ '-' :: pa ++ '-' :: bu') ++ [bc]) := by
      simp [hbc]
    have hbcws : isWs bc = false := by
      apply not_ws_of_lowerAlnum
      apply List.all_eq_true.mp hbu2
      simp [hbc]
    have hstarts : strStartsWith
        (rtrim (String.mk ('U' :: 'N' :: 'E' :: 'X' :: ' ' ::
          (ma ++ '.' :: mi ++ '-' :: pa ++ '-' :: bu)))) "UNEX" = true := by
      unfold strStartsWith rtrim
      rw [show (String.mk ('U' :: 'N' :: 'E' :: 'X' :: ' ' ::
        (ma ++ '.' :: mi ++ '-' :: pa ++ '-' :: bu))).data =
        'U' :: 'N' :: 'E' :: 'X' :: ' ' ::
          ((ma ++ '.' :: mi ++ '-' :: pa ++ '-' :: bu') ++ [bc]) from by simp [hbc]]
      rw [trimChars_UNEX_line _ bc hbcws]
      rfl
    have hsplit : splitWs (String.mk ('U' :: 'N' :: 'E' :: 'X' :: ' ' ::
        (ma ++ '.' :: mi ++ '-' :: pa ++ '-' :: bu))) =
        ["UNEX", String.mk (ma ++ '.' :: mi ++ '-' :: pa ++ '-' :: bu)] := by
      show wsTokensAux ('U' :: 'N' :: 'E' :: 'X' :: ' ' ::
        (ma ++ '.' :: mi ++ '-' :: pa ++ '-' :: bu)) [] = _
      rw [show wsTokensAux ('U' :: 'N' :: 'E' :: 'X' :: ' ' ::
        (ma ++ '.' :: mi ++ '-' :: pa ++ '-' :: bu)) [] =
        "UNEX" :: wsTokensAux (ma ++ '.' :: mi ++ '-' :: pa ++ '-' :: bu) [] from rfl]
      rw [splitWs_token _ htok htokne]
    have hnd1 : ('-' : Char) ∉ ma ++ '.' :: mi :=
      fun hm => by
        simp only [List.mem_append, List.mem_cons] at hm
        rcases hm with h | h | h
        · exact absurd (List.all_eq_true.mp hmaD _ h) (by decide)
        · exact absurd h (by decide)
        · exact absurd (List.all_eq_true.mp hmiD _ h) (by decide)
    have hnd2 : ('-' : Char) ∉ pa :=
      not_mem_of_all Char.isDigit '-' pa hpaD (by decide)
    have hnd3 : ('-' : Char) ∉ bu :=
      not_mem_of_all Unex.isLowerAlnum '-' bu hbu2 (by decide)
    have hdot1 : ('.' : Char) ∉ ma :=
      not_mem_of_all Char.isDigit '.' ma hmaD (by decide)
    have hbu3 : bu.isEmpty = false := by simp [hbc]
    have h2 : Unex.splitAllC '.' (ma ++ '.' :: mi) = [ma, mi] := by
      rw [splitAllC_append '.' ma mi hdot1]
      rw [splitAllC_no_sep '.' mi (not_mem_of_all Char.isDigit '.' mi hmiD (by decide))]
    have hcapt : Unex.versionCaptures
        (String.mk (ma ++ '.' :: mi ++ '-' :: pa ++ '-' :: bu)) = some (ma, mi, pa) := by
      unfold Unex.versionCaptures
      rw [show (String.mk (ma ++ '.' :: mi ++ '-' :: pa ++ '-' :: bu)).data =
        (ma ++ '.' :: mi) ++ '-' :: (pa ++ '-' :: bu) from by simp]
      rw [splitAllC_append '-' (ma ++ '.' :: mi) (pa ++ '-' :: bu) hnd1]
      rw [splitAllC_append '-' pa bu hnd2]
      rw [splitAllC_no_sep '-' bu hnd3]
      simp [h2, hma, hmi, hpa, hbu2, hbu3]
    unfold Unex.getFormatVersion
    rw [if_pos hstarts, hsplit]
    show (match Unex.versionCaptures
        (String.mk (ma ++ '.' :: mi ++ '-' :: pa ++ '-' :: bu)) with
      | some (ma, mi, pa) =>
        if digitsVal ma ≤ I32_MAX ∧ digitsVal mi ≤ I32_MAX ∧ digitsVal pa ≤ I32_MAX then
          some (i32Wrap (1000000 * (digitsVal ma : Int) + 10000 * (digitsVal mi : Int) +
            (digitsVal pa : Int)))
        else none
      | none => none) = _
    rw [hcapt]
    show (if digitsVal ma ≤ I32_MAX ∧ digitsVal mi ≤ I32_MAX ∧ digitsVal pa ≤ I32_MAX then
        some (i32Wrap (1000000 * (digitsVal ma : Int) + 10000 * (digitsVal mi : Int) +
          (digitsVal pa : Int)))
      else none) = _
    rw [if_pos (show digitsVal ma ≤ I32_MAX ∧ digitsVal mi ≤ I32_MAX ∧
      digitsVal pa ≤ I32_MAX by unfold I32_MAX; omega)]
    rw [i32Wrap_of_small _ (by positivity) (by exact_mod_cast hfold)]

/-- C4 witness: the selection clause at the boundary version `2_000_000`
(which must select the 2.x sub-parser), and the general decoding law at the
token `7.20-11-beta1`. -/
theorem c4_unex_version_decoding_witness :
    Unex.parse "UNEX 2.0-0-x\n" "f" = Unex.parseUnex2x "UNEX 2.0-0-x\n" "f" ∧
    Unex.getFormatVersion
      (String.mk ('U' :: 'N' :: 'E' :: 'X' :: ' ' ::
        (['7'] ++ '.' :: ['2', '0'] ++ '-' :: ['1', '1'] ++ '-' ::
          ['b', 'e', 't', 'a', '1']))) = some 7200011 := by
  constructor
  · exact (c4_unex_version_decoding.2.2.1 "UNEX 2.0-0-x\n" "f" 2000000 (by rfl)).2
      (by norm_num)
  · have h := c4_unex_version_decoding.2.2.2 ['7'] ['2', '0'] ['1', '1']
      ['b', 'e', 't', 'a', '1'] rfl rfl rfl (by simp) rfl (by decide)
    exact h.trans (by decide)

/-! ## C1 — the equal-lengths invariant, per parser -/

theorem nodeListInvB_append (l1 l2 : List Node) :
    nodeListInvB (l1 ++ l2) = (nodeListInvB l1 && nodeListInvB l2) := by
  induction l1 with
  | nil => simp [nodeListInvB]
  | cons n ns ih => simp [nodeListInvB, ih, Bool.and_assoc]

theorem Cols.balancedB_push (c : Cols) (a : Int) (x y z : FVal)
    (h : c.balancedB = true) : (c.push a x y z).balancedB = true := by
  obtain ⟨an, xs, ys, zs⟩ := c
  simp [Cols.balancedB, Cols.push] at h ⊢
  omega

theorem coordsOkB_toCoords (c : Cols) (h : c.balancedB = true) :
    coordsOkB c.toCoords = true := by
  obtain ⟨an, xs, ys, zs⟩ := c
  simpa [Cols.balancedB, coordsOkB, Cols.toCoords] using h

theorem nodeInvB_coords_node (name : String) (co : AtomicCoordinates)
    (h : coordsOkB co = true) :
    nodeInvB (Node.mk name atCoordsType (.coords co) []) = true := by
  simp [nodeInvB, nodeListInvB, nodeLocalInv, h]

theorem nodeInvB_nonCoords (name kind : String) (d : Payload) (children : List Node)
    (hk : ¬(kind = atCoordsType)) (hch : nodeListInvB children = true) :
    nodeInvB (Node.mk name kind d children) = true := by
  simp [nodeInvB, nodeLocalInv, hk, hch]

theorem listModify_inv (l : List Node) (f : Node → Node)
    (hf : ∀ nd, nodeInvB nd = true → nodeInvB (f nd) = true) :
    ∀ i : Nat, nodeListInvB l = true → nodeListInvB (Unex.listModify l i f) = true := by
  induction l with
  | nil => intro i hl; simpa using hl
  | cons a as ih =>
    intro i hl
    simp only [nodeListInvB, Bool.and_eq_true] at hl
    cases i with
    | zero => simp only [Unex.listModify, nodeListInvB, hf a hl.1, hl.2, Bool.and_self]
    | succ j => simp only [Unex.listModify, nodeListInvB, hl.1, ih j hl.2, Bool.and_self]

theorem pushChild_inv (nd c : Node) (h1 : nodeInvB nd = true) (h2 : nodeInvB c = true) :
    nodeInvB (Unex.Node.pushChild nd c) = true := by
  obtain ⟨n, k, d, cs⟩ := nd
  simp only [Unex.Node.pushChild]
  simp only [nodeInvB, Bool.and_eq_true] at h1 ⊢
  refine ⟨h1.1, ?_⟩
  rw [nodeListInvB_append]
  simp [h1.2, nodeListInvB, h2]

theorem groupStep_inv (st : Unex.GroupSt) (m : String) (co : AtomicCoordinates)
    (hst : nodeListInvB st.children = true) (hco : coordsOkB co = true) :
    nodeListInvB (Unex.groupStep st m co).children = true := by
  unfold Unex.groupStep
  simp only
  apply listModify_inv
  · intro nd hnd
    exact pushChild_inv nd _ hnd (nodeInvB_coords_node _ co hco)
  · cases Unex.aGet st.molecules m with
    | none =>
      rw [nodeListInvB_append]
      simp [hst, nodeListInvB,
        nodeInvB_nonCoords m molType Payload.empty [] (by decide) rfl]
    | some idx => simpa using hst

theorem xyz_go_inv (f : String) (lines : List String) :
    ∀ (n : Nat) (st st' : Xyz.St),
      st.an.length = st.xs.length → st.an.length = st.ys.length →
      st.an.length = st.zs.length → nodeListInvB st.children = true →
      Xyz.go f lines n st = .ok st' → nodeListInvB st'.children = true := by
  induction lines with
  | nil =>
    intro n st st' _ _ _ hch hgo
    simp only [Xyz.go, RResult.ok.injEq] at hgo
    subst hgo
    exact hch
  | cons line rest ih =>
    intro n st st' h1 h2 h3 hch hgo
    obtain ⟨state, numAtoms, numRead, title, an, xs, ys, zs, children, molData⟩ := st
    simp only at h1 h2 h3 hch
    cases state with
    | init =>
      simp only [Xyz.go] at hgo
      split at hgo
      · simp only [RResult.ok.injEq] at hgo
        subst hgo
        exact hch
      · split at hgo
        · simp at hgo
        · split at hgo
          · simp at hgo
          · exact ih _ _ _ h1 h2 h3 hch hgo
    | comment =>
      simp only [Xyz.go] at hgo
      split at hgo
      · simp at hgo
      · exact ih _ _ _ rfl rfl rfl hch hgo
    | cards =>
      simp only [Xyz.go] at hgo
      split at hgo
      · split at hgo
        · simp at hgo
        · split at hgo
          · split at hgo
            · refine ih _ _ _ (by simp; omega) (by simp; omega) (by simp; omega) ?_ hgo
              rw [nodeListInvB_append]
              simp only [hch, nodeListInvB, Bool.and_true, Bool.true_and]
              apply nodeInvB_coords_node
              simp only [coordsOkB]
              simp only [List.length_append, List.length_cons, List.length_nil]
              have e1 : xs.length + 1 = an.length + 1 := by omega
              have e2 : ys.length + 1 = an.length + 1 := by omega
              have e3 : zs.length + 1 = an.length + 1 := by omega
              simp [e1, e2, e3]
            · exact ih _ _ _ (by simp; omega) (by simp; omega) (by simp; omega) hch hgo
          · simp at hgo
      · simp at hgo

theorem xyz_parse_inv (content f : String) (nd : Node)
    (h : Xyz.parse content f = .ok nd) : nodeInvB nd = true := by
  unfold Xyz.parse at h
  split at h
  · rename_i st hst
    simp only [RResult.ok.injEq] at h
    subst h
    exact nodeInvB_nonCoords _ molType _ _ (by decide)
      (xyz_go_inv f (rustLines content) 0 (Xyz.initSt f) st rfl rfl rfl rfl hst)
  · simp at h
  · simp at h

theorem mdl_go_inv (f : String) (lines : List String) :
    ∀ (n : Nat) (state : Mdlmol2000.MState) (st : Mdlmol2000.St) (children : List Node),
      st.cols.balancedB = true →
      Mdlmol2000.go f lines n state st = .ok children → nodeListInvB children = true := by
  induction lines with
  | nil =>
    intro n state st children _ hgo
    simp only [Mdlmol2000.go, RResult.ok.injEq] at hgo
    subst hgo
    rfl
  | cons line rest ih =>
    intro n state st children hbal hgo
    obtain ⟨title, numAtoms, numRead, cols⟩ := st
    simp only at hbal
    cases state with
    | init =>
      simp only [Mdlmol2000.go] at hgo
      exact ih _ _ _ _ hbal hgo
    | control =>
      simp only [Mdlmol2000.go] at hgo
      split at hgo
      · simp at hgo
      · split at hgo
        · simp at hgo
        · split at hgo
          · simp at hgo
          · split at hgo
            · simp at hgo
            · split at hgo
              · simp at hgo
              · split at hgo
                · simp at hgo
                · split at hgo
                  · simp at hgo
                  · refine ih _ _ _ _ ?_ hgo
                    rfl
    | atom =>
      simp only [Mdlmol2000.go] at hgo
      split at hgo
      · split at hgo
        · simp at hgo
        · split at hgo
          · split at hgo
            · simp only [RResult.ok.injEq] at hgo
              subst hgo
              simp only [nodeListInvB, Bool.and_true]
              exact nodeInvB_coords_node _ _
                (coordsOkB_toCoords _ (Cols.balancedB_push _ _ _ _ _ hbal))
            · exact ih _ _ _ _ (Cols.balancedB_push _ _ _ _ _ hbal) hgo
          · simp at hgo
      · simp at hgo

theorem mdl_parse_inv (content f : String) (nd : Node)
    (h : Mdlmol2000.parse content f = .ok nd) : nodeInvB nd = true := by
  unfold Mdlmol2000.parse at h
  split at h
  · simp at h
  · simp at h
  · rename_i children hgo
    simp only [RResult.ok.injEq] at h
    subst h
    exact nodeInvB_nonCoords _ molType _ _ (by decide)
      (mdl_go_inv f (rustLines content) 0 .init ⟨"", 0, 0, .empty⟩ children rfl hgo)

theorem rowPush_balanced (line : String) (c : Cols) (h : c.balancedB = true) :
    (Cfour.rowPush line c).balancedB = true := by
  unfold Cfour.rowPush
  split
  · exact Cols.balancedB_push _ _ _ _ _ h
  · exact h

theorem mkSetNode_inv (setNum : Nat) (cols : Cols) (h : cols.balancedB = true) :
    nodeInvB (Cfour.mkSetNode setNum cols) = true :=
  nodeInvB_coords_node _ _ (coordsOkB_toCoords _ h)

theorem cfour_go_inv (lines : List String) :
    ∀ (mode : Cfour.Mode) (setNum : Nat) (children : List Node),
      (∀ cols, mode = .table cols → cols.balancedB = true) →
      nodeListInvB children = true →
      nodeListInvB (Cfour.go lines mode setNum children) = true := by
  induction lines with
  | nil =>
    intro mode setNum children hmode hch
    cases mode with
    | scan => exact hch
    | skip k =>
      simp only [Cfour.go]
      rw [nodeListInvB_append]
      simp [hch, nodeListInvB, mkSetNode_inv setNum Cols.empty rfl]
    | table cols =>
      simp only [Cfour.go]
      rw [nodeListInvB_append]
      simp [hch, nodeListInvB, mkSetNode_inv setNum cols (hmode cols rfl)]
  | cons line rest ih =>
    intro mode setNum children hmode hch
    cases mode with
    | scan =>
      simp only [Cfour.go]
      split
      · exact ih _ _ _ (fun cols h => nomatch h) hch
      · exact ih _ _ _ (fun cols h => nomatch h) hch
    | skip k =>
      simp only [Cfour.go]
      refine ih _ _ _ ?_ hch
      intro cols h
      split at h
      · cases h
        rfl
      · cases h
    | table cols =>
      have hbal := hmode cols rfl
      simp only [Cfour.go]
      split
      · refine ih _ _ _ (fun c h => nomatch h) ?_
        rw [nodeListInvB_append]
        simp [hch, nodeListInvB, mkSetNode_inv setNum cols hbal]
      · refine ih _ _ _ ?_ hch
        intro c h
        cases h
        exact rowPush_balanced _ _ hbal

theorem cfour_parse_inv (content f : String) (nd : Node)
    (h : Cfour.parse content f = .ok nd) : nodeInvB nd = true := by
  unfold Cfour.parse at h
  simp only [RResult.ok.injEq] at h
  subst h
  exact nodeInvB_nonCoords _ molType _ _ (by decide)
    (cfour_go_inv (rustLines content) .scan 0 [] (fun cols h => nomatch h) rfl)

theorem unexRowPush_balanced (line : String) (c : Cols) (h : c.balancedB = true) :
    (Unex.unexRowPush line c).balancedB = true := by
  unfold Unex.unexRowPush
  split
  · exact Cols.balancedB_push _ _ _ _ _ h
  · exact h

theorem go1x_inv (lines : List String) :
    ∀ (mode : Unex.U1Mode) (st : Unex.GroupSt),
      (∀ m cols, mode = .table m cols → cols.balancedB = true) →
      nodeListInvB st.children = true →
      nodeListInvB (Unex.go1x lines mode st).children = true := by
  induction lines with
  | nil =>
    intro mode st hmode hch
    cases mode with
    | scan => exact hch
    | skip k m =>
      exact groupStep_inv st m _ hch (coordsOkB_toCoords _ rfl)
    | table m cols =>
      exact groupStep_inv st m _ hch (coordsOkB_toCoords _ (hmode m cols rfl))
  | cons line rest ih =>
    intro mode st hmode hch
    cases mode with
    | scan =>
      simp only [Unex.go1x]
      split
      · exact ih _ _ (fun m c h => nomatch h) hch
      · exact ih _ _ (fun m c h => nomatch h) hch
    | skip k m =>
      simp only [Unex.go1x]
      refine ih _ _ ?_ hch
      intro m' c h
      split at h
      · cases h
        rfl
      · cases h
    | table m cols =>
      have hbal := hmode m cols rfl
      simp only [Unex.go1x]
      split
      · exact ih _ _ (fun m' c h => nomatch h)
          (groupStep_inv st m _ hch (coordsOkB_toCoords _ hbal))
      · refine ih _ _ ?_ hch
        intro m' c h
        cases h
        exact unexRowPush_balanced _ _ hbal

theorem unex1x_parse_inv (content f : String) (nd : Node)
    (h : Unex.parseUnex1x content f = .ok nd) : nodeInvB nd = true := by
  unfold Unex.parseUnex1x at h
  simp only [RResult.ok.injEq] at h
  subst h
  exact nodeInvB_nonCoords _ unexType _ _ (by decide)
    (go1x_inv (rustLines content) .scan .empty (fun m c h => nomatch h) rfl)

theorem go2x_inv (lines : List String) :
    ∀ (mode : Unex.U2Mode) (st st' : Unex.GroupSt),
      (∀ m cols, mode = .tableU m cols → cols.balancedB = true) →
      (∀ m cols, mode = .tableMol m cols → cols.balancedB = true) →
      nodeListInvB st.children = true →
      Unex.go2x lines mode st = .ok st' →
      nodeListInvB st'.children = true := by
  induction lines with
  | nil =>
    intro mode st st' hmU hmM hch hgo
    cases mode with
    | scan =>
      simp only [Unex.go2x, RResult.ok.injEq] at hgo
      subst hgo
      exact hch
    | header fmt delim m =>
      simp only [Unex.go2x, RResult.ok.injEq] at hgo
      subst hgo
      exact groupStep_inv st m _ hch (coordsOkB_toCoords _ rfl)
    | skipMol k m =>
      simp only [Unex.go2x, RResult.ok.injEq] at hgo
      subst hgo
      exact groupStep_inv st m _ hch (coordsOkB_toCoords _ rfl)
    | tableU m cols =>
      simp only [Unex.go2x, RResult.ok.injEq] at hgo
      subst hgo
      exact groupStep_inv st m _ hch (coordsOkB_toCoords _ (hmU m cols rfl))
    | tableMol m cols =>
      simp only [Unex.go2x, RResult.ok.injEq] at hgo
      subst hgo
      exact groupStep_inv st m _ hch (coordsOkB_toCoords _ (hmM m cols rfl))
    | tableInv m =>
      simp only [Unex.go2x, RResult.ok.injEq] at hgo
      subst hgo
      exact groupStep_inv st m _ hch (coordsOkB_toCoords _ rfl)
  | cons line rest ih =>
    intro mode st st' hmU hmM hch hgo
    cases mode with
    | scan =>
      simp only [Unex.go2x] at hgo
      split at hgo
      · refine ih _ _ _ ?_ ?_ hch hgo
        · intro m c h
          cases h
        · intro m c h
          cases h
      · refine ih _ _ _ ?_ ?_ hch hgo
        · intro m c h
          cases h
        · intro m c h
          cases h
    | header fmt delim m =>
      simp only [Unex.go2x] at hgo
      split at hgo
      · split at hgo
        · split at hgo
          · refine ih _ _ _ ?_ ?_ hch hgo
            · intro m' c h
              cases h
            · intro m' c h
              cases h
          · split at hgo
            · refine ih _ _ _ ?_ ?_ hch hgo
              · intro m' c h
                cases h
              · intro m' c h
                cases h
            · simp at hgo
        · refine ih _ _ _ ?_ ?_ hch hgo
          · intro m' c h
            cases h
          · intro m' c h
            cases h
      · split at hgo
        · split at hgo
          · split at hgo
            · refine ih _ _ _ ?_ ?_ hch hgo
              · intro m' c h
                cases h
                rfl
              · intro m' c h
                cases h
            · refine ih _ _ _ ?_ ?_ hch hgo
              · intro m' c h
                cases h
              · intro m' c h
                cases h
          · split at hgo
            · refine ih _ _ _ ?_ ?_ hch hgo
              · intro m' c h
                cases h
              · intro m' c h
                cases h
            · refine ih _ _ _ ?_ ?_ hch hgo
              · intro m' c h
                cases h
              · intro m' c h
                cases h
        · refine ih _ _ _ ?_ ?_ hch hgo
          · intro m' c h
            cases h
          · intro m' c h
            cases h
    | skipMol k m =>
      simp only [Unex.go2x] at hgo
      refine ih _ _ _ ?_ ?_ hch hgo
      · intro m' c h
        split at h
        · cases h
        · cases h
      · intro m' c h
        split at h
        · cases h
          rfl
        · cases h
    | tableU m cols =>
      have hbal := hmU m cols rfl
      simp only [Unex.go2x] at hgo
      split at hgo
      · refine ih _ _ _ ?_ ?_ ?_ hgo
        · intro m' c h
          cases h
        · intro m' c h
          cases h
        · exact groupStep_inv st m _ hch (coordsOkB_toCoords _ hbal)
      · refine ih _ _ _ ?_ ?_ hch hgo
        · intro m' c h
          cases h
          exact unexRowPush_balanced _ _ hbal
        · intro m' c h
          cases h
    | tableMol m cols =>
      have hbal := hmM m cols rfl
      simp only [Unex.go2x] at hgo
      split at hgo
      · refine ih _ _ _ ?_ ?_ ?_ hgo
        · intro m' c h
          cases h
        · intro m' c h
          cases h
        · exact groupStep_inv st m _ hch (coordsOkB_toCoords _ hbal)
      · split at hgo
        · simp at hgo
        · simp at hgo
        · refine ih _ _ _ ?_ ?_ hch hgo
          · intro m' c h
            cases h
          · intro m' c h
            cases h
            exact Cols.balancedB_push _ _ _ _ _ hbal
        · refine ih _ _ _ ?_ ?_ hch hgo
          · intro m' c h
            cases h
          · intro m' c h
            cases h
            exact hbal
    | tableInv m =>
      simp only [Unex.go2x] at hgo
      split at hgo
      · refine ih _ _ _ ?_ ?_ ?_ hgo
        · intro m' c h
          cases h
        · intro m' c h
          cases h
        · exact groupStep_inv st m _ hch (coordsOkB_toCoords _ rfl)
      · refine ih _ _ _ ?_ ?_ hch hgo
        · intro m' c h
          cases h
        · intro m' c h
          cases h

theorem unex2x_parse_inv (content f : String) (nd : Node)
    (h : Unex.parseUnex2x content f = .ok nd) : nodeInvB nd = true := by
  unfold Unex.parseUnex2x at h
  split at h
  · simp at h
  · simp at h
  · rename_i st hgo
    simp only [RResult.ok.injEq] at h
    subst h
    exact nodeInvB_nonCoords _ unexType _ _ (by decide)
      (go2x_inv (rustLines content) .scan .empty st (fun m c h => nomatch h)
        (fun m c h => nomatch h) rfl hgo)

theorem unex_parse_inv (content f : String) (nd : Node)
    (h : Unex.parse content f = .ok nd) : nodeInvB nd = true := by
  unfold Unex.parse at h
  split at h
  · simp at h
  · split at h
    · exact unex1x_parse_inv content f nd h
    · exact unex2x_parse_inv content f nd h

theorem readAtoms_lengths (ls : List String) :
    ∀ (idx k : Nat) (acc cols : List Int × List FVal × List FVal × List FVal)
      (ls2 : List String) (idx2 : Nat),
      coordsOkB ⟨acc.1, acc.2.1, acc.2.2.1, acc.2.2.2⟩ = true →
      Cube.readAtoms ls idx k acc = .ok (cols, ls2, idx2) →
      coordsOkB ⟨cols.1, cols.2.1, cols.2.2.1, cols.2.2.2⟩ = true := by
  induction ls with
  | nil =>
    intro idx k acc cols ls2 idx2 hacc h
    cases k with
    | zero =>
      simp only [Cube.readAtoms, RResult.ok.injEq, Prod.mk.injEq] at h
      obtain ⟨h1, _, _⟩ := h
      subst h1
      exact hacc
    | succ k => simp [Cube.readAtoms] at h
  | cons line rest ih =>
    intro idx k acc cols ls2 idx2 hacc h
    cases k with
    | zero =>
      simp only [Cube.readAtoms, RResult.ok.injEq, Prod.mk.injEq] at h
      obtain ⟨h1, _, _⟩ := h
      subst h1
      exact hacc
    | succ k =>
      simp only [Cube.readAtoms] at h
      split at h
      · split at h
        · simp at h
        · split at h
          · simp at h
          · split at h
            · simp at h
            · split at h
              · simp at h
              · refine ih _ _ _ _ _ _ ?_ h
                simp only [coordsOkB, Bool.and_eq_true, beq_iff_eq,
                  List.length_append, List.length_cons, List.length_nil] at hacc ⊢
                omega
      · simp at h

theorem cube_parse_inv (content f : String) (nd : Node)
    (h : Cube.parse content f = .ok nd) : nodeInvB nd = true := by
  unfold Cube.parse Cube.parseLines at h
  split at h
  · simp at h
  · split at h
    · simp at h
    · split at h
      · simp at h
      · split at h
        · split at h
          · simp at h
          · split at h
            · simp at h
            · split at h
              · simp only [] at h
                split at h
                · simp at h
                · simp at h
                · split at h
                  · simp at h
                  · simp at h
                  · rename_i hra
                    split at h
                    · simp at h
                    · simp at h
                    · split at h
                      · simp at h
                      · split at h
                        · simp at h
                        · simp at h
                        · split at h
                          · simp at h
                          · split at h
                            · simp at h
                            · simp only [RResult.ok.injEq] at h
                              subst h
                              refine nodeInvB_nonCoords _ volumeCubeType _ _ (by decide) ?_
                              simp only [nodeListInvB, Bool.and_eq_true]
                              exact ⟨nodeInvB_coords_node _ _
                                (readAtoms_lengths _ _ _ _ _ _ _ (by decide) hra), trivial⟩
              · simp at h
        · simp at h

/-- **C1.** For every input on which a registered parser (XYZ, Gaussian Cube,
UNEX 1.x or 2.x, Cfour, MDL Mol V2000) returns `Ok`, every node of the
resulting tree whose type tag is `atomic_coordinates` carries a payload whose
four arrays `atomic_num`, `x`, `y`, `z` have equal length. -/
theorem c1_atomic_coordinates_equal_lengths (e : FormatEntry) (he : e ∈ PARSERS)
    (content fileName : String) (nd : Node)
    (h : e.fparse content fileName = .ok nd) : nodeInvB nd = true := by
  simp only [PARSERS, List.mem_cons, List.not_mem_nil, or_false] at he
  rcases he with rfl | rfl | rfl | rfl | rfl
  · exact xyz_parse_inv content fileName nd h
  · exact cube_parse_inv content fileName nd h
  · exact unex_parse_inv content fileName nd h
  · exact cfour_parse_inv content fileName nd h
  · exact mdl_parse_inv content fileName nd h

theorem c1_atomic_coordinates_equal_lengths_witness :
    ∃ nd, Xyz.parse "2\nwater\nO 0.0 0.0 0.0\nH 0.0 0.0 0.96\n" "w.xyz" = .ok nd ∧
      nodeInvB nd = true :=
  ⟨_, rfl, c1_atomic_coordinates_equal_lengths ⟨"XYZ", Xyz.test, Xyz.parse⟩
    (by unfold PARSERS; exact List.mem_cons_self _ _)
    "2\nwater\nO 0.0 0.0 0.0\nH 0.0 0.0 0.96\n" "w.xyz" _ rfl⟩

theorem aGet_cons (a : String) (b : Nat) (r : List (String × Nat)) (n : String) :
    Unex.aGet ((a, b) :: r) n = if a = n then some b else Unex.aGet r n := by
  by_cases h : a = n
  · simp [Unex.aGet, List.find?, h]
  · simp [Unex.aGet, List.find?, h]

theorem aGet_aUpd (s : List (String × Nat)) (k : String) (v : Nat) (n : String) :
    Unex.aGet (Unex.aUpd s k v) n = if k = n then some v else Unex.aGet s n := by
  induction s with
  | nil =>
    simp only [Unex.aUpd]
    rw [aGet_cons]
  | cons p r ih =>
    obtain ⟨a, b⟩ := p
    simp only [Unex.aUpd]
    split
    · rename_i hk
      subst hk
      rw [aGet_cons, aGet_cons]
      by_cases h : a = n
      · simp [h]
      · simp [h]
    · rename_i hk
      rw [aGet_cons, aGet_cons, ih]
      by_cases h : a = n
      · subst h
        rw [if_pos rfl, if_pos rfl, if_neg (fun he => hk he.symm)]
      · rw [if_neg h, if_neg h]

theorem posOf_snoc_of_some (l : List String) (x n : String) (i : Nat)
    (h : Unex.posOf l n = some i) : Unex.posOf (l ++ [x]) n = some i := by
  induction l generalizing i with
  | nil => simp [Unex.posOf] at h
  | cons a l ih =>
    simp only [List.cons_append, Unex.posOf, List.append_eq] at h ⊢
    by_cases ha : a = n
    · simpa [ha] using h
    · rw [if_neg ha] at h ⊢
      cases hp : Unex.posOf l n with
      | none => rw [hp] at h; simp at h
      | some j =>
        rw [hp] at h
        rw [ih j hp]
        exact h

theorem posOf_snoc_of_none (l : List String) (x n : String)
    (h : Unex.posOf l n = none) :
    Unex.posOf (l ++ [x]) n = if x = n then some l.length else none := by
  induction l with
  | nil => simp [Unex.posOf]
  | cons a l ih =>
    simp only [List.cons_append, Unex.posOf, List.append_eq] at h ⊢
    by_cases ha : a = n
    · simp [ha] at h
    · rw [if_neg ha] at h ⊢
      cases hp : Unex.posOf l n with
      | none =>
        rw [ih (by simpa [hp] using rfl)]
        by_cases hx : x = n
        · simp [hx, List.length_cons]
        · simp [hx]
      | some j => rw [hp] at h; simp at h

theorem posOf_eq_none_iff (l : List String) (n : String) :
    Unex.posOf l n = none ↔ n ∉ l := by
  induction l with
  | nil => simp [Unex.posOf]
  | cons a l ih =>
    simp only [Unex.posOf, List.mem_cons]
    by_cases ha : a = n
    · simp [ha]
    · rw [if_neg ha]
      cases hp : Unex.posOf l n with
      | none =>
        have hn : n ∉ l := ih.mp hp
        have hna : ¬(n = a) := fun he => ha he.symm
        simp [hp, hn, hna]
      | some j =>
        have hn : n ∈ l := by
          by_contra hc
          rw [ih.mpr hc] at hp
          exact Option.noConfusion hp
        simp [hp, hn]

theorem dedupFirst_snoc (l : List String) (x : String) :
    Unex.dedupFirst (l ++ [x]) =
      if x ∈ Unex.dedupFirst l then Unex.dedupFirst l else Unex.dedupFirst l ++ [x] := by
  simp [Unex.dedupFirst, List.foldl_append]

theorem mem_dedupFirst (l : List String) (n : String) :
    n ∈ Unex.dedupFirst l ↔ n ∈ l := by
  induction l using List.reverseRecOn with
  | nil => simp [Unex.dedupFirst]
  | append_singleton l x ih =>
    rw [dedupFirst_snoc]
    by_cases h : x ∈ Unex.dedupFirst l
    · rw [if_pos h]
      simp only [List.mem_append, List.mem_singleton, ih]
      constructor
      · exact fun hm => Or.inl hm
      · rintro (hm | rfl)
        · exact hm
        · exact ih.mp h
    · rw [if_neg h]
      simp [ih]

theorem dedupFirst_nodup (l : List String) : (Unex.dedupFirst l).Nodup := by
  induction l using List.reverseRecOn with
  | nil => exact List.nodup_nil
  | append_singleton l x ih =>
    rw [dedupFirst_snoc]
    by_cases h : x ∈ Unex.dedupFirst l
    · rwa [if_pos h]
    · rw [if_neg h]
      refine List.Nodup.append ih (List.nodup_singleton x) ?_
      intro a ha hax
      simp only [List.mem_singleton] at hax
      subst hax
      exact h ha

theorem setsForAux_snoc (l : List AtomicCoordinates) (c : AtomicCoordinates) :
    ∀ k, Unex.setsForAux (l ++ [c]) k =
      Unex.setsForAux l k ++
        [Node.mk ("Set#" ++ toString (k + l.length + 1)) atCoordsType (.coords c) []] := by
  induction l with
  | nil => intro k; simp [Unex.setsForAux]
  | cons a l ih =>
    intro k
    simp only [List.cons_append, Unex.setsForAux, List.append_eq, ih, List.length_cons]
    have h : k + 1 + l.length + 1 = k + (l.length + 1) + 1 := by omega
    rw [h]

theorem listModify_snoc_length (l : List Node) (a : Node) (f : Node → Node) :
    Unex.listModify (l ++ [a]) l.length f = l ++ [f a] := by
  induction l with
  | nil => rfl
  | cons b l ih => simp [Unex.listModify, ih, List.length_cons]

theorem listModify_map_posOf (l : List String) (m : String)
    (g : String → Node) (f : Node → Node) :
    ∀ i, Unex.posOf l m = some i → l.Nodup →
      Unex.listModify (l.map g) i f =
        l.map (fun n => if n = m then f (g n) else g n) := by
  induction l with
  | nil => intro i hpos _; simp [Unex.posOf] at hpos
  | cons a l ih =>
    intro i hpos hnd
    simp only [Unex.posOf] at hpos
    by_cases h : a = m
    · subst h
      rw [if_pos rfl] at hpos
      injection hpos with h0
      subst h0
      simp only [List.map_cons, Unex.listModify, if_pos rfl]
      congr 1
      refine List.map_congr_left ?_
      intro n hn
      have hne : ¬(n = a) := fun he => (List.nodup_cons.mp hnd).1 (he ▸ hn)
      rw [if_neg hne]
    · rw [if_neg h] at hpos
      cases hp : Unex.posOf l m with
      | none => rw [hp] at hpos; simp at hpos
      | some j =>
        rw [hp] at hpos
        simp at hpos
        subst hpos
        simp only [List.map_cons, Unex.listModify,
          if_neg (fun he => h he)]
        rw [ih j hp (List.nodup_cons.mp hnd).2]

theorem groupFold_snoc (occs : List (String × AtomicCoordinates))
    (p : String × AtomicCoordinates) :
    Unex.groupFold (occs ++ [p]) = Unex.groupStep (Unex.groupFold occs) p.1 p.2 := by
  simp [Unex.groupFold, List.foldl_append]

theorem go1x_occs (lines : List String) :
    ∀ (mode : Unex.U1Mode) (st : Unex.GroupSt),
      Unex.go1x lines mode st =
        (Unex.occs1x lines mode).foldl (fun s p => Unex.groupStep s p.1 p.2) st := by
  induction lines with
  | nil =>
    intro mode st
    cases mode <;> rfl
  | cons line rest ih =>
    intro mode st
    cases mode with
    | scan =>
      simp only [Unex.go1x, Unex.occs1x]
      by_cases hc : containsSub line Unex.MARKER_1X
      · simp [hc, ih]
      · simp [hc, ih]
    | skip k m =>
      exact ih _ st
    | table m cols =>
      simp only [Unex.go1x, Unex.occs1x]
      by_cases hc : containsSub line "--"
      · simp [hc, ih, List.foldl_cons]
      · simp [hc, ih]

theorem setsFor_snoc_self (occs : List (String × AtomicCoordinates)) (m : String)
    (c : AtomicCoordinates) :
    Unex.setsFor (occs ++ [(m, c)]) m =
      Unex.setsFor occs m ++
        [Node.mk ("Set#" ++ toString ((occs.filter (fun p => p.1 == m)).length + 1))
          atCoordsType (.coords c) []] := by
  unfold Unex.setsFor
  rw [List.filter_append]
  simp only [List.filter_cons, List.filter_nil, beq_self_eq_true, if_true]
  rw [List.map_append]
  simp only [List.map_cons, List.map_nil]
  rw [setsForAux_snoc]
  simp [List.length_map]

theorem setsFor_snoc_ne (occs : List (String × AtomicCoordinates)) (m n : String)
    (c : AtomicCoordinates) (hne : ¬(n = m)) :
    Unex.setsFor (occs ++ [(m, c)]) n = Unex.setsFor occs n := by
  unfold Unex.setsFor
  rw [List.filter_append]
  have hb : ((m, c).1 == n) = false := beq_eq_false_iff_ne.mpr (fun he => hne he.symm)
  simp [List.filter_cons, hb]

theorem groupFold_spec (occs : List (String × AtomicCoordinates)) :
    (Unex.groupFold occs).children = Unex.expectedChildren occs ∧
    (∀ n, Unex.aGet (Unex.groupFold occs).molecules n =
      Unex.posOf (Unex.dedupFirst (occs.map Prod.fst)) n) ∧
    (∀ n, Unex.aGet (Unex.groupFold occs).setNums n =
      if (occs.filter (fun p => p.1 == n)).length = 0 then none
      else some (occs.filter (fun p => p.1 == n)).length) := by
  induction occs using List.reverseRecOn with
  | nil => exact ⟨rfl, fun n => rfl, fun n => rfl⟩
  | append_singleton occs p ih =>
    obtain ⟨m, c⟩ := p
    obtain ⟨h1, h2, h3⟩ := ih
    rw [groupFold_snoc]
    have hsetNum : (Unex.aGet (Unex.groupFold occs).setNums m).getD 0 =
        (occs.filter (fun p => p.1 == m)).length := by
      rw [h3 m]
      by_cases h : (occs.filter (fun p => p.1 == m)).length = 0
      · simp [h]
      · simp [h]
    cases hfound : Unex.posOf (Unex.dedupFirst (occs.map Prod.fst)) m with
    | some i =>
      have hm : m ∈ Unex.dedupFirst (occs.map Prod.fst) := by
        by_contra hc
        rw [(posOf_eq_none_iff _ _).mpr hc] at hfound
        exact Option.noConfusion hfound
      have hD : Unex.dedupFirst ((occs ++ [(m, c)]).map Prod.fst) =
          Unex.dedupFirst (occs.map Prod.fst) := by
        rw [List.map_append]
        simp only [List.map_cons, List.map_nil]
        rw [dedupFirst_snoc, if_pos hm]
      refine ⟨?_, ?_, ?_⟩
      · simp only [Unex.groupStep, h2 m, hfound, hsetNum]
        rw [h1]
        simp only [Unex.expectedChildren]
        rw [listModify_map_posOf _ _ _ _ i hfound (dedupFirst_nodup _), hD]
        refine List.map_congr_left ?_
        intro n hn
        by_cases hnm : n = m
        · subst hnm
          rw [if_pos rfl]
          simp only [Unex.Node.pushChild]
          rw [setsFor_snoc_self]
        · rw [if_neg hnm, setsFor_snoc_ne _ _ _ _ hnm]
      · intro n
        simp only [Unex.groupStep, h2 m, hfound]
        rw [h2 n, hD]
      · intro n
        simp only [Unex.groupStep, h2 m, hfound, hsetNum]
        rw [aGet_aUpd]
        by_cases hmn : m = n
        · subst hmn
          have hf : List.filter (fun p => p.1 == m) [(m, c)] = [(m, c)] := by simp
          rw [if_pos rfl, List.filter_append, hf]
          simp
        · have hb : ((m, c).1 == n) = false := beq_eq_false_iff_ne.mpr hmn
          have hf : List.filter (fun p => p.1 == n) [(m, c)] = [] := by simp [hb]
          rw [if_neg hmn, h3 n, List.filter_append, hf, List.append_nil]
    | none =>
      have hm : m ∉ Unex.dedupFirst (occs.map Prod.fst) :=
        (posOf_eq_none_iff _ _).mp hfound
      have hmnames : m ∉ occs.map Prod.fst := fun hc => hm ((mem_dedupFirst _ _).mpr hc)
      have hfilter : occs.filter (fun p => p.1 == m) = [] := by
        rw [List.filter_eq_nil_iff]
        intro p hp hbp
        exact hmnames (by
          have : p.1 = m := by simpa using hbp
          exact this ▸ List.mem_map_of_mem Prod.fst hp)
      have hD : Unex.dedupFirst ((occs ++ [(m, c)]).map Prod.fst) =
          Unex.dedupFirst (occs.map Prod.fst) ++ [m] := by
        rw [List.map_append]
        simp only [List.map_cons, List.map_nil]
        rw [dedupFirst_snoc, if_neg hm]
      refine ⟨?_, ?_, ?_⟩
      · simp only [Unex.groupStep, h2 m, hfound, hsetNum, hfilter]
        rw [h1]
        simp only [Unex.expectedChildren, hD]
        rw [List.map_append]
        simp only [List.map_cons, List.map_nil]
        rw [listModify_snoc_length]
        congr 1
        · refine List.map_congr_left ?_
          intro n hn
          have hnm : ¬(n = m) := fun he => hm (he ▸ hn)
          rw [setsFor_snoc_ne _ _ _ _ hnm]
        · simp only [Unex.Node.pushChild, List.nil_append]
          rw [setsFor_snoc_self, hfilter]
          simp [Unex.setsFor, Unex.setsForAux, hfilter]
      · intro n
        simp only [Unex.groupStep, h2 m, hfound]
        rw [aGet_aUpd, hD]
        by_cases hmn : m = n
        · subst hmn
          rw [if_pos rfl, posOf_snoc_of_none _ _ _ hfound, if_pos rfl, h1]
          simp [Unex.expectedChildren]
        · rw [if_neg hmn, h2 n]
          cases hp : Unex.posOf (Unex.dedupFirst (occs.map Prod.fst)) n with
          | some j => rw [posOf_snoc_of_some _ _ _ _ hp]
          | none => rw [posOf_snoc_of_none _ _ _ hp, if_neg hmn]
      · intro n
        simp only [Unex.groupStep, h2 m, hfound, hsetNum, hfilter]
        rw [aGet_aUpd]
        by_cases hmn : m = n
        · subst hmn
          have hf : List.filter (fun p => p.1 == m) [(m, c)] = [(m, c)] := by simp
          rw [if_pos rfl, List.filter_append, hfilter, hf]
          simp
        · have hb : ((m, c).1 == n) = false := beq_eq_false_iff_ne.mpr hmn
          have hf : List.filter (fun p => p.1 == n) [(m, c)] = [] := by simp [hb]
          rw [if_neg hmn, h3 n, List.filter_append, hf, List.append_nil]

/-- **C6.** In UNEX 1.x parsing, the coordinate blocks of the file (listed in
file order by `occs1x`) are grouped under molecule child nodes deduplicated by
molecule name with first-seen-wins ordering, and each block appended under a
given molecule is named `Set#k` where `k` is the count of occurrences of that
molecule's name so far — a counter kept independently per molecule name, not a
single global counter — exactly the tree `expectedChildren` describes. -/
theorem c6_unex1x_grouping (content fileName : String) (nd : Node)
    (h : Unex.parseUnex1x content fileName = .ok nd) :
    nd.children = Unex.expectedChildren (Unex.occs1x (rustLines content) .scan) := by
  unfold Unex.parseUnex1x at h
  simp only [RResult.ok.injEq] at h
  subst h
  simp only [Node.children]
  rw [go1x_occs]
  exact (groupFold_spec _).1

theorem c6_unex1x_grouping_witness :
    ∃ nd, Unex.parseUnex1x Unex.c6Content "f.unex" = .ok nd ∧
      nd.children = Unex.expectedChildren (Unex.occs1x (rustLines Unex.c6Content) .scan) :=
  ⟨_, rfl, c6_unex1x_grouping Unex.c6Content "f.unex" _ rfl⟩

/-- C10 witness: a complete 1-atom XYZ block followed by a truncated 3-atom
block parses `Ok` with one child; an MDL file promising 5 atoms but providing
one atom line parses `Ok` with zero children. -/
theorem c10_truncated_blocks_witness :
    (∃ nd, Xyz.parse "1\nt1\n8 0.0 0.0 0.0\n3\nt2\n8 1.0 1.0 1.0\n" "f" = .ok nd ∧
      nd.children.length = 1) ∧
    Mdlmol2000.parse "title\nmeta\ncomment\n  5  1  0 V2000\n0.0 0.0 0.0 O\n" "g" =
      .ok (Node.mk "g" molType (.mol ⟨0, [], 0, "g"⟩) []) := by
  constructor
  · exact c10_truncated_blocks.1 "1\nt1\n8 0.0 0.0 0.0\n3\nt2\n8 1.0 1.0 1.0\n" "f"
      "1" "t1" "3" "t2" ["8 0.0 0.0 0.0"] ["8 1.0 1.0 1.0"] 1 3
      rfl rfl (by norm_num) rfl rfl rfl (by intro c hc; fin_cases hc <;> rfl)
      rfl (by norm_num) rfl rfl (by norm_num) (by intro c hc; fin_cases hc <;> rfl)
  · exact c10_truncated_blocks.2 "title\nmeta\ncomment\n  5  1  0 V2000\n0.0 0.0 0.0 O\n" "g"
      "title" "meta" "comment" "  5  1  0 V2000" ["0.0 0.0 0.0 O"]
      "5" "1" ["0", "V2000"] 5 1
      rfl rfl rfl (by norm_num) rfl (by norm_num) rfl rfl (by norm_num)
      (by intro l hl; fin_cases hl <;> rfl)

end Chem
